import Mathlib

/-!
Verification of the perfetto ftrace configuration muxer
(`src/traced/probes/ftrace/ftrace_config_muxer.cc`) against its
natural-language specification.

The C++ code is shallowly embedded: the muxer state is an explicit record,
the external world (ftrace procfs, the atrace helper, the proto translation
table) is an oracle record `Env`, and every externally visible write
(procfs writes, atrace invocations) is recorded in an explicit `Effect`
trace returned alongside the new state.
-/

namespace Perfetto

/-- A kernel ftrace event identifier: a `(group, name)` pair, mirroring
`GroupAndName` from the muxer's header. Ordering is lexicographic. -/
structure GroupAndName where
  group : String
  name : String
deriving DecidableEq, Repr

/-- Lexicographic strictly-less-than on char lists, modelling the byte-wise
`operator<` of `std::string` (executable, kernel-reducible). -/
def charListLt : List Char → List Char → Bool
  | [], [] => false
  | [], _ :: _ => true
  | _ :: _, [] => false
  | a :: as, b :: bs =>
    if a < b then true
    else if b < a then false
    else charListLt as bs

/-- `operator<` on `std::string`. -/
def strLt (a b : String) : Bool :=
  charListLt a.data b.data

/-- `operator<=` on `std::string`. -/
def strLe (a b : String) : Bool :=
  !(strLt b a)

/-- Insertion into a `std::set<GroupAndName>`: ordered, duplicate-free. -/
def gnInsert (x : GroupAndName) : List GroupAndName → List GroupAndName
  | [] => [x]
  | y :: ys =>
    if x = y then y :: ys
    else if strLt x.group y.group ∨ (x.group = y.group ∧ strLt x.name y.name) then
      x :: y :: ys
    else y :: gnInsert x ys

/-- Insertion into a `std::set<size_t>`: ordered, duplicate-free. -/
def natSetInsert (x : Nat) : List Nat → List Nat
  | [] => [x]
  | y :: ys =>
    if x = y then y :: ys
    else if x < y then x :: y :: ys
    else y :: natSetInsert x ys

/-- One step of insertion sort on strings, used to model `std::sort` on a
`std::vector<std::string>` (the result of any comparison sort on strings is
the same list). -/
def insortStr (x : String) : List String → List String
  | [] => [x]
  | y :: ys => if strLe x y then x :: y :: ys else y :: insortStr x ys

/-- Sorting a string vector, modelling `std::sort(v.begin(), v.end())`. -/
def sortStrings : List String → List String
  | [] => []
  | x :: xs => insortStr x (sortStrings xs)

/-- The merge step of `std::set_union` on two sorted ranges: on equal heads
the element of the first range is taken and both advance. -/
def setUnionMerge : List String → List String → List String
  | [], l2 => l2
  | a :: as, [] => a :: as
  | a :: as, b :: bs =>
    if strLt a b then a :: setUnionMerge as (b :: bs)
    else if strLt b a then b :: setUnionMerge (a :: as) bs
    else a :: setUnionMerge as bs
termination_by l1 l2 => l1.length + l2.length
decreasing_by all_goals simp_arith

/-- The merge step of `std::set_intersection` on two sorted ranges: elements
are copied from the first range. -/
def setIntersectMerge : List String → List String → List String
  | [], _ => []
  | _ :: _, [] => []
  | a :: as, b :: bs =>
    if strLt a b then setIntersectMerge as (b :: bs)
    else if strLt b a then setIntersectMerge (a :: as) bs
    else a :: setIntersectMerge as bs
termination_by l1 l2 => l1.length + l2.length
decreasing_by all_goals simp_arith

/-- `UnionInPlace(unsorted_a, out)`: sort a copy of each argument and replace
`out` with `std::set_union` of the two. -/
def UnionInPlace (unsorted_a out : List String) : List String :=
  setUnionMerge (sortStrings unsorted_a) (sortStrings out)

/-- `IntersectInPlace(unsorted_a, out)`: sort a copy of each argument and
replace `out` with `std::set_intersection` of the two. -/
def IntersectInPlace (unsorted_a out : List String) : List String :=
  setIntersectMerge (sortStrings unsorted_a) (sortStrings out)

/-- Modelled from the spec: `EventFilter` (src/traced/probes/ftrace/event_filter.h
is not part of the sources) is "a set of numeric event ids with operations
Add, Disable, Contains, UnionFrom, Enumerate". Represented as an ordered
duplicate-free list of ids. -/
structure EventFilter where
  enabled_ids : List Nat
deriving DecidableEq, Repr

/-- Modelled from the spec: `EventFilter::AddEnabledEvent(id)`. -/
def efAddEnabledEvent (id : Nat) (f : EventFilter) : EventFilter :=
  ⟨natSetInsert id f.enabled_ids⟩

/-- Modelled from the spec: `EventFilter::IsEventEnabled(id)`. -/
def efIsEventEnabled (id : Nat) (f : EventFilter) : Bool :=
  f.enabled_ids.contains id

/-- Modelled from the spec: `EventFilter::DisableEvent(id)`. -/
def efDisableEvent (id : Nat) (f : EventFilter) : EventFilter :=
  ⟨f.enabled_ids.filter (fun y => y ≠ id)⟩

/-- Modelled from the spec: `EventFilter::EnableEventsFrom(other)`: add every
id enabled in `src` to `dst`. -/
def efEnableEventsFrom (src dst : EventFilter) : EventFilter :=
  src.enabled_ids.foldl (fun acc i => efAddEnabledEvent i acc) dst

/-- Modelled from the spec: `EventFilter::GetEnabledEvents()`. -/
def efGetEnabledEvents (f : EventFilter) : List Nat :=
  f.enabled_ids

/-- `kDefaultPerCpuBufferSizeKb` (2 MiB). -/
def kDefaultPerCpuBufferSizeKb : Nat := 2 * 1024

/-- `kMaxPerCpuBufferSizeKb` (64 MiB). -/
def kMaxPerCpuBufferSizeKb : Nat := 64 * 1024

/-- Modelled from the spec: `base::kPageSize` (perfetto/ext/base/utils.h is
not part of the sources); the compile-time system page size constant,
4 KiB. -/
def kPageSize : Nat := 4096

/-- `ComputeCpuBufferSizeInPages(requested_buffer_size_kb)` from
ftrace_config_muxer.cc. -/
def ComputeCpuBufferSizeInPages (requested_buffer_size_kb : Nat) : Nat :=
  let kb1 := if requested_buffer_size_kb = 0 then kDefaultPerCpuBufferSizeKb
             else requested_buffer_size_kb
  let kb2 := if kb1 > kMaxPerCpuBufferSizeKb then kMaxPerCpuBufferSizeKb else kb1
  let pages := kb2 / (kPageSize / 1024)
  if pages = 0 then 1 else pages

/-- An `Event` record of the proto translation table: group, name and the
numeric ftrace event id. -/
structure Event where
  group : String
  name : String
  ftrace_event_id : Nat
deriving DecidableEq, Repr

/-- The proto translation table, an abstract provider exercised by the
muxer. -/
structure ProtoTranslationTable where
  getEventByName : String → Option Event
  getEventById : Nat → Event
  getEventsByGroup : String → Option (List Event)
  getOrCreateEvent : GroupAndName → Option Event

/-- The ftrace clock reported downstream, mirroring the
`protos::pbzero::FtraceClock` values used by `SetupClock`. -/
inductive FtraceClock
  | UNSPECIFIED
  | GLOBAL
  | LOCAL
  | UNKNOWN
deriving DecidableEq, Repr

/-- `FtraceConfig` — the incoming request. -/
structure FtraceConfig where
  ftrace_events : List String
  atrace_categories : List String
  atrace_apps : List String
  buffer_size_kb : Nat
  symbolize_ksyms : Bool
deriving DecidableEq, Repr

/-- Modelled from the spec: `RequiresAtrace(request)` (ftrace_config.cc is
not part of the sources): the request "requires atrace (i.e. it has
non-empty categories or apps)". -/
def RequiresAtrace (request : FtraceConfig) : Bool :=
  !request.atrace_apps.isEmpty || !request.atrace_categories.isEmpty

/-- `FtraceDataSourceConfig` — the per-config record stored in the
registry (the opaque compact-sched configuration is omitted). -/
structure FtraceDataSourceConfig where
  event_filter : EventFilter
  atrace_apps : List String
  atrace_categories : List String
  symbolize_ksyms : Bool
deriving DecidableEq, Repr

/-- `FtraceState` (`current_state_`): what the muxer believes the kernel and
atrace are doing. -/
structure FtraceState where
  ftrace_events : EventFilter
  atrace_on : Bool
  atrace_apps : List String
  atrace_categories : List String
  cpu_buffer_size_pages : Nat
  ftrace_clock : FtraceClock
deriving DecidableEq, Repr

/-- The muxer's own state: the config registry (ordered map id → config),
the active set, the id counter and the global kernel-side state. -/
structure FtraceConfigMuxer where
  ds_configs : List (Nat × FtraceDataSourceConfig)
  active_configs : List Nat
  last_id : Nat
  current_state : FtraceState
deriving DecidableEq, Repr

/-- One externally visible side effect of the muxer: a procfs write or an
atrace invocation (reads are not effects). -/
inductive Effect
  | setClock (clock : String)
  | setCpuBufferSize (pages : Nat)
  | enableEvent (group name : String)
  | disableEvent (group name : String)
  | enableTracing
  | disableTracing
  | disableAllEvents
  | clearTrace
  | runAtrace (args : List String)
deriving DecidableEq, Repr

/-- The environment: results of every external read and of every fallible
external write. Functions are deterministic oracles keyed by the call's
arguments. -/
structure Env where
  isTracingEnabled : Bool
  isOldAtrace : Bool
  enableEventResult : String → String → Bool
  disableEventResult : String → String → Bool
  setCpuBufferSizeResult : Nat → Bool
  enableTracingResult : Bool
  disableTracingResult : Bool
  runAtraceResult : List String → Bool
  getClock : String
  availableClocks : List String
  getEventNamesForGroup : String → List String
  vendorEvents : String → List GroupAndName

/-- Drop the final character of a string, modelling
`arg.resize(arg.size() - 1)` on a non-empty `std::string`. -/
def dropLastChar (s : String) : String :=
  ⟨s.data.dropLast⟩

/-- The argv built by `FtraceConfigMuxer::StartAtrace`. -/
def StartAtraceArgs (is_old_atrace : Bool) (apps categories : List String) :
    List String :=
  let args := ["atrace", "--async_start"]
  let args := if !is_old_atrace then args ++ ["--only_userspace"] else args
  let args := args ++ categories
  if !apps.isEmpty then
    let arg := apps.foldl (fun acc app => acc ++ app ++ ",") ""
    args ++ ["-a", dropLastChar arg]
  else args

/-- `FtraceConfigMuxer::StartAtrace(apps, categories)`: run the helper with
the built argv and return its success bool. -/
def StartAtrace (env : Env) (apps categories : List String) :
    Bool × List Effect :=
  let args := StartAtraceArgs env.isOldAtrace apps categories
  (env.runAtraceResult args, [Effect.runAtrace args])

/-- `FtraceConfigMuxer::DisableAtrace()`. -/
def DisableAtrace (env : Env) (st : FtraceState) : FtraceState × List Effect :=
  let args := ["atrace", "--async_stop"]
  let args := if !env.isOldAtrace then args ++ ["--only_userspace"] else args
  if env.runAtraceResult args then
    ({ st with atrace_categories := [], atrace_apps := [], atrace_on := false },
     [Effect.runAtrace args])
  else (st, [Effect.runAtrace args])

/-- `FtraceConfigMuxer::UpdateAtrace(request)`. -/
def UpdateAtrace (env : Env) (request : FtraceConfig) (st : FtraceState) :
    FtraceState × List Effect :=
  let combined_categories := UnionInPlace st.atrace_categories request.atrace_categories
  let combined_apps := UnionInPlace st.atrace_apps request.atrace_apps
  if st.atrace_on ∧ combined_apps.length = st.atrace_apps.length ∧
      combined_categories.length = st.atrace_categories.length then
    (st, [])
  else
    let r := StartAtrace env combined_apps combined_categories
    if r.1 then
      ({ st with atrace_categories := combined_categories,
                 atrace_apps := combined_apps, atrace_on := true }, r.2)
    else (st, r.2)

/-- `kClocks`, the trace clocks in preference order. -/
def kClocks : List String := ["boot", "global", "local"]

/-- The clock-selection loop of `SetupClock`: skip unavailable clocks; stop
without writing if the first available one is already current, else write it
and stop. Returns the final current clock and the effects. -/
def selectClock (availableClocks : List String) (current : String) :
    List String → String × List Effect
  | [] => (current, [])
  | clock :: rest =>
    if !availableClocks.contains clock then
      selectClock availableClocks current rest
    else if current = clock then (current, [])
    else (clock, [Effect.setClock clock])

/-- `FtraceConfigMuxer::SetupClock`. -/
def SetupClock (env : Env) (st : FtraceState) : FtraceState × List Effect :=
  let current_clock := env.getClock
  let r := selectClock env.availableClocks current_clock kClocks
  let clock_enum :=
    if r.1 = "boot" then FtraceClock.UNSPECIFIED
    else if r.1 = "global" then FtraceClock.GLOBAL
    else if r.1 = "local" then FtraceClock.LOCAL
    else FtraceClock.UNKNOWN
  ({ st with ftrace_clock := clock_enum }, r.2)

/-- `FtraceConfigMuxer::SetupBufferSize(request)`: the state records the
computed page count whether or not the procfs write succeeded. -/
def SetupBufferSize (_env : Env) (request : FtraceConfig) (st : FtraceState) :
    FtraceState × List Effect :=
  let pages := ComputeCpuBufferSizeInPages request.buffer_size_kb
  ({ st with cpu_buffer_size_pages := pages }, [Effect.setCpuBufferSize pages])

/-- Split a char list at the first `'/'`, returning `none` when there is no
slash; models `event.find('/')` followed by the two `substr` calls. -/
def findSlashSplit : List Char → Option (List Char × List Char)
  | [] => none
  | c :: cs =>
    if c = '/' then some ([], cs)
    else
      match findSlashSplit cs with
      | none => none
      | some (g, n) => some (c :: g, n)

/-- `EventToStringGroupAndName(event)`: `("", event)` when there is no slash,
else the part before the first slash and everything after it. -/
def EventToStringGroupAndName (event : String) : String × String :=
  match findSlashSplit event.data with
  | none => ("", event)
  | some (g, n) => (⟨g⟩, ⟨n⟩)

/-- `InsertEvent(group, name, dst)`. -/
def InsertEvent (group name : String) (dst : List GroupAndName) :
    List GroupAndName :=
  gnInsert ⟨group, name⟩ dst

/-- `AddEventGroup(table, group, to)`: add every event of the group known to
the table. -/
def AddEventGroup (table : ProtoTranslationTable) (group : String)
    (dst : List GroupAndName) : List GroupAndName :=
  match table.getEventsByGroup group with
  | none => dst
  | some events => events.foldl (fun acc e => gnInsert ⟨group, e.name⟩ acc) dst

/-- `ReadEventsInGroupFromFs(ftrace_procfs, group)`. -/
def ReadEventsInGroupFromFs (env : Env) (group : String) :
    List GroupAndName :=
  (env.getEventNamesForGroup ("events/" ++ group)).foldl
    (fun acc name => gnInsert ⟨group, name⟩ acc) []

/-- The per-category blocks of the hard-coded atrace category expansion of
`FtraceConfigMuxer::GetFtraceEvents`, one definition per `category ==`
branch of the source, followed by the dispatching if-chain. -/
def expandGfx (table : ProtoTranslationTable)
    (events : List GroupAndName) : List GroupAndName :=
  let events := AddEventGroup table "mdss" events
  let events := InsertEvent "mdss" "rotator_bw_ao_as_context" events
  let events := InsertEvent "mdss" "mdp_trace_counter" events
  let events := InsertEvent "mdss" "tracing_mark_write" events
  let events := InsertEvent "mdss" "mdp_cmd_wait_pingpong" events
  let events := InsertEvent "mdss" "mdp_cmd_kickoff" events
  let events := InsertEvent "mdss" "mdp_cmd_release_bw" events
  let events := InsertEvent "mdss" "mdp_cmd_readptr_done" events
  let events := InsertEvent "mdss" "mdp_cmd_pingpong_done" events
  let events := InsertEvent "mdss" "mdp_misr_crc" events
  let events := InsertEvent "mdss" "mdp_compare_bw" events
  let events := InsertEvent "mdss" "mdp_perf_update_bus" events
  let events := InsertEvent "mdss" "mdp_video_underrun_done" events
  let events := InsertEvent "mdss" "mdp_commit" events
  let events := InsertEvent "mdss" "mdp_mixer_update" events
  let events := InsertEvent "mdss" "mdp_perf_prefill_calc" events
  let events := InsertEvent "mdss" "mdp_perf_set_ot" events
  let events := InsertEvent "mdss" "mdp_perf_set_wm_levels" events
  let events := InsertEvent "mdss" "mdp_perf_set_panic_luts" events
  let events := InsertEvent "mdss" "mdp_perf_set_qos_luts" events
  let events := InsertEvent "mdss" "mdp_sspp_change" events
  let events := InsertEvent "mdss" "mdp_sspp_set" events
  let events := AddEventGroup table "mali" events
  let events := InsertEvent "mali" "tracing_mark_write" events
  let events := AddEventGroup table "sde" events
  let events := InsertEvent "sde" "tracing_mark_write" events
  let events := InsertEvent "sde" "sde_perf_update_bus" events
  let events := InsertEvent "sde" "sde_perf_set_qos_luts" events
  let events := InsertEvent "sde" "sde_perf_set_ot" events
  let events := InsertEvent "sde" "sde_perf_set_danger_luts" events
  let events := InsertEvent "sde" "sde_perf_crtc_update" events
  let events := InsertEvent "sde" "sde_perf_calc_crtc" events
  let events := InsertEvent "sde" "sde_evtlog" events
  let events := InsertEvent "sde" "sde_encoder_underrun" events
  let events := InsertEvent "sde" "sde_cmd_release_bw" events
  let events := AddEventGroup table "dpu" events
  let events := InsertEvent "dpu" "tracing_mark_write" events
  let events := AddEventGroup table "g2d" events
  let events := InsertEvent "g2d" "tracing_mark_write" events
  InsertEvent "g2d" "g2d_perf_update_qos" events

def expandIon (_table : ProtoTranslationTable)
    (events : List GroupAndName) : List GroupAndName :=
  InsertEvent "kmem" "ion_alloc_buffer_start" events

def expandSched (table : ProtoTranslationTable)
    (events : List GroupAndName) : List GroupAndName :=
  let events := InsertEvent "sched" "sched_switch" events
  let events := InsertEvent "sched" "sched_waking" events
  let events := InsertEvent "sched" "sched_blocked_reason" events
  let events := InsertEvent "sched" "sched_cpu_hotplug" events
  let events := InsertEvent "sched" "sched_pi_setprio" events
  let events := InsertEvent "sched" "sched_process_exit" events
  let events := AddEventGroup table "cgroup" events
  let events := InsertEvent "cgroup" "cgroup_transfer_tasks" events
  let events := InsertEvent "cgroup" "cgroup_setup_root" events
  let events := InsertEvent "cgroup" "cgroup_rmdir" events
  let events := InsertEvent "cgroup" "cgroup_rename" events
  let events := InsertEvent "cgroup" "cgroup_remount" events
  let events := InsertEvent "cgroup" "cgroup_release" events
  let events := InsertEvent "cgroup" "cgroup_mkdir" events
  let events := InsertEvent "cgroup" "cgroup_destroy_root" events
  let events := InsertEvent "cgroup" "cgroup_attach_task" events
  let events := InsertEvent "oom" "oom_score_adj_update" events
  let events := InsertEvent "task" "task_rename" events
  let events := InsertEvent "task" "task_newtask" events
  let events := AddEventGroup table "systrace" events
  let events := InsertEvent "systrace" "0" events
  let events := AddEventGroup table "scm" events
  let events := InsertEvent "scm" "scm_call_start" events
  InsertEvent "scm" "scm_call_end" events

def expandIrq (table : ProtoTranslationTable)
    (events : List GroupAndName) : List GroupAndName :=
  let events := AddEventGroup table "irq" events
  let events := InsertEvent "irq" "tasklet_hi_exit" events
  let events := InsertEvent "irq" "tasklet_hi_entry" events
  let events := InsertEvent "irq" "tasklet_exit" events
  let events := InsertEvent "irq" "tasklet_entry" events
  let events := InsertEvent "irq" "softirq_raise" events
  let events := InsertEvent "irq" "softirq_exit" events
  let events := InsertEvent "irq" "softirq_entry" events
  let events := InsertEvent "irq" "irq_handler_exit" events
  let events := InsertEvent "irq" "irq_handler_entry" events
  let events := AddEventGroup table "ipi" events
  let events := InsertEvent "ipi" "ipi_raise" events
  let events := InsertEvent "ipi" "ipi_exit" events
  InsertEvent "ipi" "ipi_entry" events

def expandIrqoff (_table : ProtoTranslationTable)
    (events : List GroupAndName) : List GroupAndName :=
  let events := InsertEvent "preemptirq" "irq_enable" events
  InsertEvent "preemptirq" "irq_disable" events

def expandPreemptoff (_table : ProtoTranslationTable)
    (events : List GroupAndName) : List GroupAndName :=
  let events := InsertEvent "preemptirq" "preempt_enable" events
  InsertEvent "preemptirq" "preempt_disable" events

def expandI2c (table : ProtoTranslationTable)
    (events : List GroupAndName) : List GroupAndName :=
  let events := AddEventGroup table "i2c" events
  let events := InsertEvent "i2c" "i2c_read" events
  let events := InsertEvent "i2c" "i2c_write" events
  let events := InsertEvent "i2c" "i2c_result" events
  let events := InsertEvent "i2c" "i2c_reply" events
  let events := InsertEvent "i2c" "smbus_read" events
  let events := InsertEvent "i2c" "smbus_write" events
  let events := InsertEvent "i2c" "smbus_result" events
  InsertEvent "i2c" "smbus_reply" events

def expandFreq (table : ProtoTranslationTable)
    (events : List GroupAndName) : List GroupAndName :=
  let events := InsertEvent "power" "cpu_frequency" events
  let events := InsertEvent "power" "gpu_frequency" events
  let events := InsertEvent "power" "clock_set_rate" events
  let events := InsertEvent "power" "clock_disable" events
  let events := InsertEvent "power" "clock_enable" events
  let events := InsertEvent "clk" "clk_set_rate" events
  let events := InsertEvent "clk" "clk_disable" events
  let events := InsertEvent "clk" "clk_enable" events
  let events := InsertEvent "power" "cpu_frequency_limits" events
  let events := InsertEvent "power" "suspend_resume" events
  let events := InsertEvent "cpuhp" "cpuhp_enter" events
  let events := InsertEvent "cpuhp" "cpuhp_exit" events
  let events := InsertEvent "cpuhp" "cpuhp_pause" events
  let events := AddEventGroup table "msm_bus" events
  let events := InsertEvent "msm_bus" "bus_update_request_end" events
  let events := InsertEvent "msm_bus" "bus_update_request" events
  let events := InsertEvent "msm_bus" "bus_rules_matches" events
  let events := InsertEvent "msm_bus" "bus_max_votes" events
  let events := InsertEvent "msm_bus" "bus_client_status" events
  let events := InsertEvent "msm_bus" "bus_bke_params" events
  let events := InsertEvent "msm_bus" "bus_bimc_config_limiter" events
  let events := InsertEvent "msm_bus" "bus_avail_bw" events
  InsertEvent "msm_bus" "bus_agg_bw" events

def expandMembus (table : ProtoTranslationTable)
    (events : List GroupAndName) : List GroupAndName :=
  AddEventGroup table "memory_bus" events

def expandIdle (_table : ProtoTranslationTable)
    (events : List GroupAndName) : List GroupAndName :=
  InsertEvent "power" "cpu_idle" events

def expandDisk (_table : ProtoTranslationTable)
    (events : List GroupAndName) : List GroupAndName :=
  let events := InsertEvent "f2fs" "f2fs_sync_file_enter" events
  let events := InsertEvent "f2fs" "f2fs_sync_file_exit" events
  let events := InsertEvent "f2fs" "f2fs_write_begin" events
  let events := InsertEvent "f2fs" "f2fs_write_end" events
  let events := InsertEvent "ext4" "ext4_da_write_begin" events
  let events := InsertEvent "ext4" "ext4_da_write_end" events
  let events := InsertEvent "ext4" "ext4_sync_file_enter" events
  let events := InsertEvent "ext4" "ext4_sync_file_exit" events
  let events := InsertEvent "block" "block_rq_issue" events
  InsertEvent "block" "block_rq_complete" events

def expandMmc (table : ProtoTranslationTable)
    (events : List GroupAndName) : List GroupAndName :=
  AddEventGroup table "mmc" events

def expandLoad (table : ProtoTranslationTable)
    (events : List GroupAndName) : List GroupAndName :=
  AddEventGroup table "cpufreq_interactive" events

def expandSync (table : ProtoTranslationTable)
    (events : List GroupAndName) : List GroupAndName :=
  let events := AddEventGroup table "sync" events
  let events := InsertEvent "sync" "sync_pt" events
  let events := InsertEvent "sync" "sync_timeline" events
  let events := InsertEvent "sync" "sync_wait" events
  let events := AddEventGroup table "fence" events
  let events := InsertEvent "fence" "fence_annotate_wait_on" events
  let events := InsertEvent "fence" "fence_destroy" events
  let events := InsertEvent "fence" "fence_emit" events
  let events := InsertEvent "fence" "fence_enable_signal" events
  let events := InsertEvent "fence" "fence_init" events
  let events := InsertEvent "fence" "fence_signaled" events
  let events := InsertEvent "fence" "fence_wait_end" events
  let events := InsertEvent "fence" "fence_wait_start" events
  AddEventGroup table "dma_fence" events

def expandWorkq (table : ProtoTranslationTable)
    (events : List GroupAndName) : List GroupAndName :=
  let events := AddEventGroup table "workqueue" events
  let events := InsertEvent "workqueue" "workqueue_queue_work" events
  let events := InsertEvent "workqueue" "workqueue_execute_start" events
  let events := InsertEvent "workqueue" "workqueue_execute_end" events
  InsertEvent "workqueue" "workqueue_activate_work" events

def expandMemreclaim (table : ProtoTranslationTable)
    (events : List GroupAndName) : List GroupAndName :=
  let events := InsertEvent "vmscan" "mm_vmscan_direct_reclaim_begin" events
  let events := InsertEvent "vmscan" "mm_vmscan_direct_reclaim_end" events
  let events := InsertEvent "vmscan" "mm_vmscan_kswapd_wake" events
  let events := InsertEvent "vmscan" "mm_vmscan_kswapd_sleep" events
  let events := AddEventGroup table "lowmemorykiller" events
  InsertEvent "lowmemorykiller" "lowmemory_kill" events

def expandRegulators (table : ProtoTranslationTable)
    (events : List GroupAndName) : List GroupAndName :=
  let events := AddEventGroup table "regulator" events
  let events := gnInsert ⟨"regulator", "regulator_set_voltage_complete"⟩ events
  let events := InsertEvent "regulator" "regulator_set_voltage" events
  let events := InsertEvent "regulator" "regulator_enable_delay" events
  let events := InsertEvent "regulator" "regulator_enable_complete" events
  let events := InsertEvent "regulator" "regulator_enable" events
  let events := InsertEvent "regulator" "regulator_disable_complete" events
  InsertEvent "regulator" "regulator_disable" events

def expandBinderDriver (_table : ProtoTranslationTable)
    (events : List GroupAndName) : List GroupAndName :=
  let events := InsertEvent "binder" "binder_transaction" events
  let events := InsertEvent "binder" "binder_transaction_received" events
  let events := InsertEvent "binder" "binder_transaction_alloc_buf" events
  InsertEvent "binder" "binder_set_priority" events

def expandBinderLock (_table : ProtoTranslationTable)
    (events : List GroupAndName) : List GroupAndName :=
  let events := InsertEvent "binder" "binder_lock" events
  let events := InsertEvent "binder" "binder_locked" events
  InsertEvent "binder" "binder_unlock" events

def expandPagecache (table : ProtoTranslationTable)
    (events : List GroupAndName) : List GroupAndName :=
  let events := AddEventGroup table "filemap" events
  let events := gnInsert ⟨"filemap", "mm_filemap_delete_from_page_cache"⟩ events
  let events := InsertEvent "filemap" "mm_filemap_add_to_page_cache" events
  let events := InsertEvent "filemap" "filemap_set_wb_err" events
  InsertEvent "filemap" "file_check_and_advance_wb_err" events

def expandMemory (_table : ProtoTranslationTable)
    (events : List GroupAndName) : List GroupAndName :=
  let events := InsertEvent "kmem" "rss_stat" events
  let events := InsertEvent "kmem" "ion_heap_grow" events
  let events := InsertEvent "kmem" "ion_heap_shrink" events
  let events := InsertEvent "ion" "ion_stat" events
  let events := InsertEvent "mm_event" "mm_event_record" events
  InsertEvent "dmabuf_heap" "dma_heap_stat" events

def expandThermal (_table : ProtoTranslationTable)
    (events : List GroupAndName) : List GroupAndName :=
  let events := InsertEvent "thermal" "thermal_temperature" events
  InsertEvent "thermal" "cdev_update" events

/-- The category dispatch of `FtraceConfigMuxer::GetFtraceEvents`; unknown
categories are ignored. -/
def expandAtraceCategory (table : ProtoTranslationTable) (category : String)
    (events : List GroupAndName) : List GroupAndName :=
  if category = "gfx" then expandGfx table events
  else if category = "ion" then expandIon table events
  else if category = "sched" then expandSched table events
  else if category = "irq" then expandIrq table events
  else if category = "irqoff" then expandIrqoff table events
  else if category = "preemptoff" then expandPreemptoff table events
  else if category = "i2c" then expandI2c table events
  else if category = "freq" then expandFreq table events
  else if category = "membus" then expandMembus table events
  else if category = "idle" then expandIdle table events
  else if category = "disk" then expandDisk table events
  else if category = "mmc" then expandMmc table events
  else if category = "load" then expandLoad table events
  else if category = "sync" then expandSync table events
  else if category = "workq" then expandWorkq table events
  else if category = "memreclaim" then expandMemreclaim table events
  else if category = "regulators" then expandRegulators table events
  else if category = "binder_driver" then expandBinderDriver table events
  else if category = "binder_lock" then expandBinderLock table events
  else if category = "pagecache" then expandPagecache table events
  else if category = "memory" then expandMemory table events
  else if category = "thermal" then expandThermal table events
  else events

/-- `FtraceConfigMuxer::GetFtraceEvents(request, table)`: resolve the
explicit event specifiers, then, when the request requires atrace, insert
`ftrace/print` and expand every category. -/
def GetFtraceEvents (env : Env) (request : FtraceConfig)
    (table : ProtoTranslationTable) : List GroupAndName :=
  let events := request.ftrace_events.foldl
    (fun events config_value =>
      let gn := EventToStringGroupAndName config_value
      if gn.2 = "*" then
        (ReadEventsInGroupFromFs env gn.1).foldl (fun acc e => gnInsert e acc) events
      else if gn.1 = "" then
        match table.getEventByName gn.2 with
        | none => events
        | some e => gnInsert ⟨e.group, e.name⟩ events
      else gnInsert ⟨gn.1, gn.2⟩ events)
    []
  if RequiresAtrace request then
    let events := InsertEvent "ftrace" "print" events
    request.atrace_categories.foldl
      (fun evs category => expandAtraceCategory table category evs) events
  else events

/-- The per-event enable loop of `SetupConfig`: thread the per-config filter
and the global `current_state_.ftrace_events` through the resolved event
list, recording every attempted procfs enable. -/
def setupEnableEvents (env : Env) (table : ProtoTranslationTable) :
    List GroupAndName → EventFilter → EventFilter →
    EventFilter × EventFilter × List Effect
  | [], filter, global => (filter, global, [])
  | gn :: rest, filter, global =>
    match table.getOrCreateEvent gn with
    | none => setupEnableEvents env table rest filter global
    | some event =>
      if efIsEventEnabled event.ftrace_event_id global ∨ event.group = "ftrace" then
        setupEnableEvents env table rest
          (efAddEnabledEvent event.ftrace_event_id filter) global
      else
        let ok := env.enableEventResult event.group event.name
        let filter' := if ok then efAddEnabledEvent event.ftrace_event_id filter
                       else filter
        let global' := if ok then efAddEnabledEvent event.ftrace_event_id global
                       else global
        let r := setupEnableEvents env table rest filter' global'
        (r.1, r.2.1, Effect.enableEvent event.group event.name :: r.2.2)

/-- The tail of `SetupConfig` after the interference guards: resolve events,
merge vendor events, run the atrace update if required (bailing out on the
legacy-atrace concurrency rule), enable events, register the config. -/
def setupConfigRest (env : Env) (table : ProtoTranslationTable)
    (m : FtraceConfigMuxer) (request : FtraceConfig) (effs0 : List Effect) :
    Nat × FtraceConfigMuxer × List Effect :=
  let events := GetFtraceEvents env request table
  let events := request.atrace_categories.foldl
    (fun evs category =>
      (env.vendorEvents category).foldl (fun acc e => gnInsert e acc) evs)
    events
  if RequiresAtrace request ∧ env.isOldAtrace ∧ ¬ m.ds_configs.isEmpty then
    (0, m, effs0)
  else
    let ra :=
      if RequiresAtrace request then UpdateAtrace env request m.current_state
      else (m.current_state, [])
    let r := setupEnableEvents env table events ⟨[]⟩ ra.1.ftrace_events
    let id := m.last_id + 1
    let cfg : FtraceDataSourceConfig :=
      ⟨r.1, request.atrace_apps, request.atrace_categories,
       request.symbolize_ksyms⟩
    (id,
     { ds_configs := m.ds_configs ++ [(id, cfg)],
       active_configs := m.active_configs,
       last_id := id,
       current_state := { ra.1 with ftrace_events := r.2.1 } },
     effs0 ++ ra.2 ++ r.2.2)

/-- `FtraceConfigMuxer::SetupConfig(request)`: returns the new config id
(0 on failure), the new muxer state and the effect trace. -/
def SetupConfig (env : Env) (table : ProtoTranslationTable)
    (m : FtraceConfigMuxer) (request : FtraceConfig) :
    Nat × FtraceConfigMuxer × List Effect :=
  let is_ftrace_enabled := env.isTracingEnabled
  if m.ds_configs.isEmpty then
    if is_ftrace_enabled ∧ ¬ env.isOldAtrace then (0, m, [])
    else
      let rc := SetupClock env m.current_state
      let rb := SetupBufferSize env request rc.1
      setupConfigRest env table { m with current_state := rb.1 } request
        (rc.2 ++ rb.2)
  else
    if ¬ m.active_configs.isEmpty ∧ ¬ is_ftrace_enabled ∧ ¬ env.isOldAtrace then
      (0, m, [])
    else setupConfigRest env table m request []

/-- The union over the remaining registry entries computed at the start of
`RemoveConfig`: expected ftrace events, expected atrace apps and expected
atrace categories. -/
def computeExpected (remaining : List (Nat × FtraceDataSourceConfig)) :
    EventFilter × List String × List String :=
  remaining.foldl
    (fun acc p =>
      (efEnableEventsFrom p.2.event_filter acc.1,
       UnionInPlace p.2.atrace_apps acc.2.1,
       UnionInPlace p.2.atrace_categories acc.2.2))
    (⟨[]⟩, [], [])

/-- The per-event disable loop of `RemoveConfig`: for every currently
enabled id not expected any more, attempt the procfs disable and drop the id
from the global filter only on success. -/
def removeDisableLoop (env : Env) (table : ProtoTranslationTable) :
    List Nat → EventFilter → EventFilter → EventFilter × List Effect
  | [], _, global => (global, [])
  | id :: rest, expected, global =>
    if efIsEventEnabled id expected then
      removeDisableLoop env table rest expected global
    else
      let event := table.getEventById id
      let global' :=
        if env.disableEventResult event.group event.name then
          efDisableEvent event.ftrace_event_id global
        else global
      let r := removeDisableLoop env table rest expected global'
      (r.1, Effect.disableEvent event.group event.name :: r.2)

/-- `FtraceConfigMuxer::RemoveConfig(config_id)`: returns the success bool,
the new muxer state and the effect trace. -/
def RemoveConfig (env : Env) (table : ProtoTranslationTable)
    (m : FtraceConfigMuxer) (config_id : Nat) :
    Bool × FtraceConfigMuxer × List Effect :=
  if config_id = 0 ∨ ¬ m.ds_configs.any (fun p => p.1 = config_id) then
    (false, m, [])
  else
    let ds := m.ds_configs.filter (fun p => p.1 ≠ config_id)
    let expected := computeExpected ds
    let expected_apps := IntersectInPlace m.current_state.atrace_apps expected.2.1
    let expected_categories :=
      IntersectInPlace m.current_state.atrace_categories expected.2.2
    let atrace_changed :=
      m.current_state.atrace_apps.length ≠ expected_apps.length ∨
      m.current_state.atrace_categories.length ≠ expected_categories.length
    let event_ids := efGetEnabledEvents m.current_state.ftrace_events
    let rdis :=
      removeDisableLoop env table event_ids expected.1
        m.current_state.ftrace_events
    let ract :=
      if config_id ∈ m.active_configs then
        let a := m.active_configs.filter (fun x => x ≠ config_id)
        if a.isEmpty then (a, [Effect.disableTracing]) else (a, ([] : List Effect))
      else (m.active_configs, [])
    let st1 := { m.current_state with ftrace_events := rdis.1 }
    let rdown :=
      if ds.isEmpty then
        (if env.setCpuBufferSizeResult 1 then
           { st1 with cpu_buffer_size_pages := 1 }
         else st1,
         [Effect.setCpuBufferSize 1, Effect.disableAllEvents,
          Effect.clearTrace])
      else (st1, [])
    let ratr :=
      if rdown.1.atrace_on then
        if expected_apps.isEmpty ∧ expected_categories.isEmpty then
          DisableAtrace env rdown.1
        else if atrace_changed then
          let rs := StartAtrace env expected_apps expected_categories
          if rs.1 then
            ({ rdown.1 with atrace_apps := expected_apps,
                            atrace_categories := expected_categories }, rs.2)
          else (rdown.1, rs.2)
        else (rdown.1, [])
      else (rdown.1, [])
    (true,
     { ds_configs := ds, active_configs := ract.1, last_id := m.last_id,
       current_state := ratr.1 },
     rdis.2 ++ ract.2 ++ rdown.2 ++ ratr.2)

/-- Specification-side description of the `-a` argument of `StartAtrace`:
the apps joined with commas, no trailing comma. -/
def commaJoinSpec : List String → String
  | [] => ""
  | [a] => a
  | a :: b :: rest => a ++ "," ++ commaJoinSpec (b :: rest)

/-- A small concrete translation table used to instantiate theorems on
concrete inputs. -/
def sampleTable : ProtoTranslationTable where
  getEventByName := fun _ => none
  getEventById := fun i =>
    if i = 1 then ⟨"sched", "sched_switch", 1⟩
    else if i = 2 then ⟨"power", "cpu_idle", 2⟩
    else ⟨"grp", "evt", i⟩
  getEventsByGroup := fun g =>
    if g = "cgroup" then some [⟨"cgroup", "cgroup_mkdir", 10⟩]
    else if g = "systrace" then some [⟨"systrace", "0", 11⟩]
    else if g = "scm" then some [⟨"scm", "scm_call_start", 12⟩]
    else none
  getOrCreateEvent := fun gn =>
    if gn.group = "sched" ∧ gn.name = "sched_switch" then
      some ⟨"sched", "sched_switch", 1⟩
    else none

/-- A concrete environment used to instantiate theorems on concrete
inputs. -/
def sampleEnv : Env where
  isTracingEnabled := true
  isOldAtrace := false
  enableEventResult := fun _ _ => true
  disableEventResult := fun _ _ => true
  setCpuBufferSizeResult := fun _ => true
  enableTracingResult := true
  disableTracingResult := true
  runAtraceResult := fun _ => true
  getClock := "boot"
  availableClocks := ["boot", "global", "local"]
  getEventNamesForGroup := fun _ => []
  vendorEvents := fun _ => []

/-- A concrete initial global state. -/
def sampleState : FtraceState where
  ftrace_events := ⟨[]⟩
  atrace_on := false
  atrace_apps := []
  atrace_categories := []
  cpu_buffer_size_pages := 0
  ftrace_clock := FtraceClock.UNSPECIFIED

/-- A concrete muxer with an empty registry. -/
def sampleMuxerEmpty : FtraceConfigMuxer := ⟨[], [], 0, sampleState⟩

/-- A concrete empty request. -/
def sampleRequest : FtraceConfig := ⟨[], [], [], 0, false⟩

/-- A per-config record whose filter enables event 1. -/
def sampleCfgA : FtraceDataSourceConfig := ⟨⟨[1]⟩, [], [], false⟩

/-- A per-config record whose filter enables event 2. -/
def sampleCfgB : FtraceDataSourceConfig := ⟨⟨[2]⟩, [], [], false⟩

/-- A concrete muxer holding two configs, with both events on in the
kernel. -/
def sampleMuxer2 : FtraceConfigMuxer :=
  ⟨[(1, sampleCfgA), (2, sampleCfgB)], [], 2,
   { sampleState with ftrace_events := ⟨[1, 2]⟩ }⟩

/-- A concrete muxer holding one active config. -/
def sampleMuxer1 : FtraceConfigMuxer :=
  ⟨[(1, sampleCfgA)], [1], 1,
   { sampleState with ftrace_events := ⟨[1]⟩ }⟩

/-!
## Helper lemmas
-/

theorem mem_gnInsert {a x : GroupAndName} {s : List GroupAndName} :
    a ∈ gnInsert x s ↔ a = x ∨ a ∈ s := by
  induction s with
  | nil => simp [gnInsert]
  | cons y ys ih =>
    simp only [gnInsert]
    split
    · rename_i h; subst h; simp [List.mem_cons]; try tauto
    · split
      · simp [List.mem_cons]; try tauto
      · simp [List.mem_cons, ih]; try tauto

theorem gnInsert_mem_self {x : GroupAndName} {s : List GroupAndName} :
    x ∈ gnInsert x s :=
  mem_gnInsert.mpr (Or.inl rfl)

theorem gnInsert_mem {a x : GroupAndName} {s : List GroupAndName}
    (h : a ∈ s) : a ∈ gnInsert x s :=
  mem_gnInsert.mpr (Or.inr h)

theorem mem_natSetInsert {a x : Nat} {s : List Nat} :
    a ∈ natSetInsert x s ↔ a = x ∨ a ∈ s := by
  induction s with
  | nil => simp [natSetInsert]
  | cons y ys ih =>
    simp only [natSetInsert]
    split
    · rename_i h; subst h; simp [List.mem_cons]; try tauto
    · split
      · simp [List.mem_cons]; try tauto
      · simp [List.mem_cons, ih]; try tauto

theorem string_ext {s t : String} (h : s.data = t.data) : s = t := by
  cases s; cases t; congr 1

theorem string_data_append (s t : String) : (s ++ t).data = s.data ++ t.data :=
  rfl

/-!
## C4 and C5 - ComputeCpuBufferSizeInPages
-/

/-- C4: `ComputeCpuBufferSizeInPages(0)` is the 2 MiB default converted to
pages (512 on the 4 KiB page size); any request above 65536 KiB is capped to
65536 KiB before the page conversion; a 1 KiB request yields 1 page; and the
result is always at least one page. -/
theorem computeCpuBufferSizeInPages_spec :
    ComputeCpuBufferSizeInPages 0 = 2048 / (kPageSize / 1024) ∧
    (∀ kb, kb > 64 * 1024 →
      ComputeCpuBufferSizeInPages kb = (64 * 1024) / (kPageSize / 1024)) ∧
    ComputeCpuBufferSizeInPages 1 = 1 ∧
    (∀ kb, 1 ≤ ComputeCpuBufferSizeInPages kb) := by
  have aux : ∀ n : Nat, 1 ≤ if n = 0 then 1 else n := by
    intro n; split <;> omega
  refine ⟨by decide, ?_, by decide, ?_⟩
  · intro kb h
    have h0 : ¬ kb = 0 := by omega
    simp only [ComputeCpuBufferSizeInPages, kDefaultPerCpuBufferSizeKb,
      kMaxPerCpuBufferSizeKb, kPageSize]
    rw [if_neg h0, if_pos h]
    decide
  · intro kb
    simp only [ComputeCpuBufferSizeInPages]
    exact aux _

/-- Witness for C4: a request of 65537 KiB is above the cap and is capped to
65536 KiB, i.e. 16384 pages. -/
theorem computeCpuBufferSizeInPages_spec_witness :
    65537 > 64 * 1024 ∧
    ComputeCpuBufferSizeInPages 65537 = (64 * 1024) / (kPageSize / 1024) :=
  ⟨by decide, computeCpuBufferSizeInPages_spec.2.1 65537 (by decide)⟩

/-- C5 counterexample: at the cap (a 65536 KiB request) the result times the
4 KiB page size equals the 64 MiB cap exactly, so it is not strictly below
it. -/
theorem computeCpuBufferSize_not_strictly_below_cap :
    ¬ (ComputeCpuBufferSizeInPages (64 * 1024) * (kPageSize / 1024) <
        64 * 1024) := by
  decide

/-- C5 amended: for every input, the result times the 4 KiB page size is at
most (not strictly below) the 64 MiB cap, with equality reached at the
cap. -/
theorem computeCpuBufferSize_le_cap (kb : Nat) :
    ComputeCpuBufferSizeInPages kb * (kPageSize / 1024) ≤ 64 * 1024 := by
  have aux : ∀ x : Nat, x ≤ 64 * 1024 →
      (if x / (4096 / 1024) = 0 then 1 else x / (4096 / 1024)) *
        (4096 / 1024) ≤ 64 * 1024 := by
    intro x hx; split <;> omega
  by_cases hkb : kb = 0
  · subst hkb; decide
  · simp only [ComputeCpuBufferSizeInPages, kDefaultPerCpuBufferSizeKb,
      kMaxPerCpuBufferSizeKb, kPageSize, if_neg hkb]
    refine aux _ ?_
    split <;> omega

/-!
## C6 - StartAtrace argv construction
-/

theorem fold_comma_data (apps : List String) (acc : String) :
    (apps.foldl (fun acc app => acc ++ app ++ ",") acc).data =
      acc.data ++ (apps.foldl (fun acc app => acc ++ app ++ ",") "").data := by
  induction apps generalizing acc with
  | nil => simp
  | cons a rest ih =>
    simp only [List.foldl_cons]
    rw [ih (acc ++ a ++ ","), ih ("" ++ a ++ ",")]
    simp [string_data_append]

theorem fold_comma_eq_commaJoin (apps : List String) (h : apps ≠ []) :
    (apps.foldl (fun acc app => acc ++ app ++ ",") "").data =
      (commaJoinSpec apps).data ++ [','] := by
  induction apps with
  | nil => cases h rfl
  | cons a rest ih =>
    cases rest with
    | nil => simp [commaJoinSpec, string_data_append]
    | cons b rest2 =>
      rw [List.foldl_cons, fold_comma_data, ih (by simp)]
      simp [commaJoinSpec, string_data_append]

theorem dropLastChar_comma {s : String} {x : List Char}
    (h : s.data = x ++ [',']) : (dropLastChar s).data = x := by
  simp [dropLastChar, h]

/-- C6: `StartAtrace` builds exactly `["atrace", "--async_start"]`, then
`"--only_userspace"` unless on legacy atrace, then each category verbatim in
order, then (iff apps is non-empty) `"-a"` with a single comma-joined
argument with no trailing comma; it returns the helper's success bool. -/
theorem startAtrace_argv (is_old : Bool) (env : Env)
    (apps categories : List String) :
    StartAtraceArgs is_old apps categories =
      ["atrace", "--async_start"] ++
      (if is_old then [] else ["--only_userspace"]) ++
      categories ++
      (if apps.isEmpty then [] else ["-a", commaJoinSpec apps]) ∧
    (StartAtrace env apps categories).1 =
      env.runAtraceResult (StartAtraceArgs env.isOldAtrace apps categories) := by
  refine ⟨?_, rfl⟩
  simp only [StartAtraceArgs]
  have hjoin : apps.isEmpty = false →
      dropLastChar (apps.foldl (fun acc app => acc ++ app ++ ",") "") =
        commaJoinSpec apps := by
    intro ha
    apply string_ext
    apply dropLastChar_comma
    exact fold_comma_eq_commaJoin apps (by simpa [List.isEmpty_iff] using ha)
  cases is_old <;> cases hae : apps.isEmpty <;>
    first
      | (simp [hae]; done)
      | simp [hae, hjoin hae]

/-!
## C8 - SetupClock
-/

/-- C8: `SetupClock` selects the first clock of the preference list
`boot, global, local` that appears in the kernel's available clocks (keeping
the currently selected clock when none of them is available), writes it via
`SetClock` only when it differs from the currently selected clock, and
records `UNSPECIFIED` when the resulting clock is `boot`, `GLOBAL` for
`global`, `LOCAL` for `local` and `UNKNOWN` for anything else. -/
theorem setupClock_spec (env : Env) (st : FtraceState) :
    (SetupClock env st).1.ftrace_clock =
      (if ((kClocks.find? (fun c => env.availableClocks.contains c)).getD
            env.getClock) = "boot" then FtraceClock.UNSPECIFIED
       else if ((kClocks.find? (fun c => env.availableClocks.contains c)).getD
            env.getClock) = "global" then FtraceClock.GLOBAL
       else if ((kClocks.find? (fun c => env.availableClocks.contains c)).getD
            env.getClock) = "local" then FtraceClock.LOCAL
       else FtraceClock.UNKNOWN) ∧
    (SetupClock env st).2 =
      (if env.getClock =
          ((kClocks.find? (fun c => env.availableClocks.contains c)).getD
            env.getClock) then []
       else [Effect.setClock
          ((kClocks.find? (fun c => env.availableClocks.contains c)).getD
            env.getClock)]) := by
  by_cases hb : "boot" ∈ env.availableClocks
  · by_cases hc : env.getClock = "boot" <;>
      simp [SetupClock, selectClock, kClocks, List.find?, hb, hc]
  · by_cases hg : "global" ∈ env.availableClocks
    · by_cases hc : env.getClock = "global" <;>
        simp [SetupClock, selectClock, kClocks, List.find?, hb, hg, hc]
    · by_cases hl : "local" ∈ env.availableClocks
      · by_cases hc : env.getClock = "local" <;>
          simp [SetupClock, selectClock, kClocks, List.find?, hb, hg, hl, hc]
      · simp [SetupClock, selectClock, kClocks, List.find?, hb, hg, hl]

/-!
## C1 - SetupConfig failure conditions
-/

theorem setupConfigRest_fst (env : Env) (table : ProtoTranslationTable)
    (m : FtraceConfigMuxer) (request : FtraceConfig) (effs0 : List Effect) :
    (setupConfigRest env table m request effs0).1 =
      if RequiresAtrace request = true ∧ env.isOldAtrace = true ∧
          ¬ m.ds_configs.isEmpty = true then 0
      else m.last_id + 1 := by
  simp only [setupConfigRest]
  split <;> rfl

theorem setupConfigRest_zero (env : Env) (table : ProtoTranslationTable)
    (m : FtraceConfigMuxer) (request : FtraceConfig) (effs0 : List Effect)
    (h : RequiresAtrace request = true ∧ env.isOldAtrace = true ∧
      ¬ m.ds_configs.isEmpty = true) :
    setupConfigRest env table m request effs0 = (0, m, effs0) := by
  simp only [setupConfigRest]
  rw [if_pos h]

/-- C1: `SetupConfig(request)` returns 0 iff (a) the registry is empty,
`tracing_on` reads 1 and the platform is not legacy atrace; or (b) the
registry is non-empty, the active set is non-empty, `tracing_on` reads 0
and the platform is not legacy atrace; or (c) the platform is legacy
atrace, the request requires atrace and the registry is non-empty.
Whenever it returns 0, no muxer state is mutated and no procfs write or
atrace invocation is performed. -/
theorem setupConfig_returns_zero_iff (env : Env)
    (table : ProtoTranslationTable) (m : FtraceConfigMuxer)
    (request : FtraceConfig) :
    ((SetupConfig env table m request).1 = 0 ↔
      (m.ds_configs.isEmpty = true ∧ env.isTracingEnabled = true ∧
        env.isOldAtrace = false) ∨
      (m.ds_configs.isEmpty = false ∧ m.active_configs.isEmpty = false ∧
        env.isTracingEnabled = false ∧ env.isOldAtrace = false) ∨
      (env.isOldAtrace = true ∧ RequiresAtrace request = true ∧
        m.ds_configs.isEmpty = false)) ∧
    ((SetupConfig env table m request).1 = 0 →
      (SetupConfig env table m request).2.1 = m ∧
      (SetupConfig env table m request).2.2 = ([] : List Effect)) := by
  by_cases hde : m.ds_configs.isEmpty = true
  · by_cases hga : env.isTracingEnabled = true ∧ ¬ env.isOldAtrace = true
    · -- registry empty and the interference guard fires
      have hzero : SetupConfig env table m request = (0, m, []) := by
        simp only [SetupConfig]
        rw [if_pos hde, if_pos hga]
      rw [hzero]
      refine ⟨?_, fun _ => ⟨rfl, rfl⟩⟩
      simp only [true_iff]
      exact Or.inl ⟨hde, hga.1, by simpa using hga.2⟩
    · -- registry empty, guard silent: proceeds and returns a fresh id
      have hfst : (SetupConfig env table m request).1 = m.last_id + 1 := by
        simp only [SetupConfig]
        rw [if_pos hde, if_neg hga, setupConfigRest_fst,
          if_neg (by simp [hde])]
      rw [hfst]
      refine ⟨?_, fun h0 => absurd h0 (Nat.succ_ne_zero _)⟩
      simp only [Nat.succ_ne_zero, false_iff]
      intro hABC
      rcases hABC with hA | hB | hC
      · exact hga ⟨hA.2.1, by simp [hA.2.2]⟩
      · exact absurd hde (by simp [hB.1])
      · exact absurd hde (by simp [hC.2.2])
  · by_cases hgb : ¬ m.active_configs.isEmpty = true ∧
        ¬ env.isTracingEnabled = true ∧ ¬ env.isOldAtrace = true
    · -- registry non-empty and the tampering guard fires
      have hzero : SetupConfig env table m request = (0, m, []) := by
        simp only [SetupConfig]
        rw [if_neg hde, if_pos hgb]
      rw [hzero]
      refine ⟨?_, fun _ => ⟨rfl, rfl⟩⟩
      simp only [true_iff]
      refine Or.inr (Or.inl ?_)
      exact ⟨by simpa using hde, by simpa using hgb.1, by simpa using hgb.2.1,
        by simpa using hgb.2.2⟩
    · by_cases hc : RequiresAtrace request = true ∧ env.isOldAtrace = true ∧
          ¬ m.ds_configs.isEmpty = true
      · -- legacy-atrace concurrency rule fires inside setupConfigRest
        have hzero : SetupConfig env table m request = (0, m, []) := by
          simp only [SetupConfig]
          rw [if_neg hde, if_neg hgb, setupConfigRest_zero _ _ _ _ _ hc]
        rw [hzero]
        refine ⟨?_, fun _ => ⟨rfl, rfl⟩⟩
        simp only [true_iff]
        exact Or.inr (Or.inr ⟨hc.2.1, hc.1, by simpa using hde⟩)
      · -- nothing fires: a fresh id is returned
        have hfst : (SetupConfig env table m request).1 = m.last_id + 1 := by
          simp only [SetupConfig]
          rw [if_neg hde, if_neg hgb, setupConfigRest_fst, if_neg hc]
        rw [hfst]
        refine ⟨?_, fun h0 => absurd h0 (Nat.succ_ne_zero _)⟩
        simp only [Nat.succ_ne_zero, false_iff]
        intro hABC
        rcases hABC with hA | hB | hC
        · exact hde hA.1
        · exact hgb ⟨by simp [hB.2.1], by simp [hB.2.2.1], by simp [hB.2.2.2]⟩
        · exact hc ⟨hC.2.1, hC.1, by simp [hC.2.2]⟩

/-- Witness for C1: with an empty registry, `tracing_on` reading 1 and a
modern atrace, `SetupConfig` returns 0, mutates nothing and performs no
write. -/
theorem setupConfig_returns_zero_iff_witness :
    (SetupConfig sampleEnv sampleTable sampleMuxerEmpty sampleRequest).1 = 0 ∧
    (SetupConfig sampleEnv sampleTable sampleMuxerEmpty sampleRequest).2.1 =
      sampleMuxerEmpty ∧
    (SetupConfig sampleEnv sampleTable sampleMuxerEmpty sampleRequest).2.2 =
      ([] : List Effect) := by
  have h := setupConfig_returns_zero_iff sampleEnv sampleTable
    sampleMuxerEmpty sampleRequest
  have h0 : (SetupConfig sampleEnv sampleTable sampleMuxerEmpty
      sampleRequest).1 = 0 :=
    h.1.mpr (Or.inl ⟨by decide, by decide, by decide⟩)
  exact ⟨h0, (h.2 h0).1, (h.2 h0).2⟩

/-!
## C7 - UpdateAtrace
-/

theorem charListLt_antisymm :
    ∀ {as bs : List Char}, charListLt as bs = false →
      charListLt bs as = false → as = bs := by
  intro as
  induction as with
  | nil =>
    intro bs h1 _
    cases bs with
    | nil => rfl
    | cons b bs => simp [charListLt] at h1
  | cons a as ih =>
    intro bs h1 h2
    cases bs with
    | nil => simp [charListLt] at h2
    | cons b bs =>
      simp only [charListLt] at h1 h2
      by_cases hab : a < b
      · simp [hab] at h1
      · by_cases hba : b < a
        · simp [hab, hba] at h2
        · have hc : a = b := le_antisymm (not_lt.mp hba) (not_lt.mp hab)
          subst hc
          simp [hab] at h1 h2
          rw [ih h1 h2]

theorem strLt_antisymm {a b : String} (h1 : strLt a b = false)
    (h2 : strLt b a = false) : a = b :=
  string_ext (charListLt_antisymm h1 h2)

theorem mem_setUnionMerge {x : String} :
    ∀ {l1 l2 : List String},
      x ∈ setUnionMerge l1 l2 ↔ x ∈ l1 ∨ x ∈ l2 := by
  intro l1 l2
  induction l1, l2 using setUnionMerge.induct with
  | case1 l2 => simp [setUnionMerge]
  | case2 a as => simp [setUnionMerge]
  | case3 a as b bs hab ih =>
    rw [setUnionMerge, if_pos hab]
    simp [List.mem_cons, ih]
    tauto
  | case4 a as b bs hab hba ih =>
    rw [setUnionMerge, if_neg hab, if_pos hba]
    simp [List.mem_cons, ih]
    tauto
  | case5 a as b bs hab hba ih =>
    rw [setUnionMerge, if_neg hab, if_neg hba]
    have heq : a = b :=
      strLt_antisymm (by simpa using hab) (by simpa using hba)
    subst heq
    simp [List.mem_cons, ih]
    tauto

theorem insortStr_perm (x : String) (l : List String) :
    (insortStr x l).Perm (x :: l) := by
  induction l with
  | nil => simp [insortStr]
  | cons y ys ih =>
    simp only [insortStr]
    split
    · exact List.Perm.refl _
    · exact ((ih.cons y).trans (List.Perm.swap x y ys))

theorem sortStrings_perm (l : List String) : (sortStrings l).Perm l := by
  induction l with
  | nil => simp [sortStrings]
  | cons x xs ih =>
    exact (insortStr_perm x (sortStrings xs)).trans (ih.cons x)

theorem mem_sortStrings {x : String} {l : List String} :
    x ∈ sortStrings l ↔ x ∈ l :=
  (sortStrings_perm l).mem_iff

theorem mem_UnionInPlace {x : String} {a out : List String} :
    x ∈ UnionInPlace a out ↔ x ∈ a ∨ x ∈ out := by
  rw [UnionInPlace, mem_setUnionMerge, mem_sortStrings, mem_sortStrings]

/-- C7: `UpdateAtrace` computes the set union of the current state and the
request for both apps and categories; when atrace is already on and neither
combined size changed it performs no invocation and leaves the state be;
otherwise it invokes `StartAtrace` on the combined lists, and the global
atrace state is replaced (with `atrace_on := true`) exactly when the
invocation succeeds, staying unchanged on failure. -/
theorem updateAtrace_spec (env : Env) (request : FtraceConfig)
    (st : FtraceState) :
    (∀ x, x ∈ UnionInPlace st.atrace_apps request.atrace_apps ↔
      x ∈ st.atrace_apps ∨ x ∈ request.atrace_apps) ∧
    (∀ x, x ∈ UnionInPlace st.atrace_categories request.atrace_categories ↔
      x ∈ st.atrace_categories ∨ x ∈ request.atrace_categories) ∧
    ((st.atrace_on = true ∧
      (UnionInPlace st.atrace_apps request.atrace_apps).length =
        st.atrace_apps.length ∧
      (UnionInPlace st.atrace_categories request.atrace_categories).length =
        st.atrace_categories.length) →
      UpdateAtrace env request st = (st, [])) ∧
    (¬ (st.atrace_on = true ∧
      (UnionInPlace st.atrace_apps request.atrace_apps).length =
        st.atrace_apps.length ∧
      (UnionInPlace st.atrace_categories request.atrace_categories).length =
        st.atrace_categories.length) →
      UpdateAtrace env request st =
        (if env.runAtraceResult (StartAtraceArgs env.isOldAtrace
            (UnionInPlace st.atrace_apps request.atrace_apps)
            (UnionInPlace st.atrace_categories request.atrace_categories))
         then
          { st with
            atrace_apps := UnionInPlace st.atrace_apps request.atrace_apps,
            atrace_categories :=
              UnionInPlace st.atrace_categories request.atrace_categories,
            atrace_on := true }
         else st,
         [Effect.runAtrace (StartAtraceArgs env.isOldAtrace
            (UnionInPlace st.atrace_apps request.atrace_apps)
            (UnionInPlace st.atrace_categories request.atrace_categories))])) := by
  refine ⟨fun x => mem_UnionInPlace, fun x => mem_UnionInPlace, ?_, ?_⟩
  · intro h
    simp only [UpdateAtrace]
    rw [if_pos h]
  · intro h
    simp only [UpdateAtrace]
    rw [if_neg h]
    by_cases hr : env.runAtraceResult (StartAtraceArgs env.isOldAtrace
        (UnionInPlace st.atrace_apps request.atrace_apps)
        (UnionInPlace st.atrace_categories request.atrace_categories)) = true
    · simp [StartAtrace, hr]
    · simp only [Bool.not_eq_true] at hr
      simp [StartAtrace, hr]

/-- Witness for C7: with atrace off and a request adding one category, the
combined union is computed and atrace is invoked, and on success the state
is replaced. -/
theorem updateAtrace_spec_witness :
    ("sched" ∈ UnionInPlace sampleState.atrace_categories
      (["sched"] : List String)) ∧
    UpdateAtrace sampleEnv
      { sampleRequest with atrace_categories := ["sched"] } sampleState =
      ({ sampleState with atrace_categories := ["sched"], atrace_on := true },
       [Effect.runAtrace ["atrace", "--async_start", "--only_userspace",
         "sched"]]) := by
  have h := updateAtrace_spec sampleEnv
    { sampleRequest with atrace_categories := ["sched"] } sampleState
  constructor
  · exact (h.2.1 "sched").mpr (Or.inr (by decide))
  · have h4 := h.2.2.2 (by intro hcon; exact absurd hcon.1 (by decide))
    rw [h4]
    simp +decide [sampleEnv, sampleState, sampleRequest, UnionInPlace,
      sortStrings, insortStr, setUnionMerge, StartAtraceArgs]

/-!
## C10 - the intersect-then-compare-sizes logic of RemoveConfig
-/

theorem setIntersectMerge_sublist :
    ∀ (l1 l2 : List String), List.Sublist (setIntersectMerge l1 l2) l1 := by
  intro l1 l2
  induction l1, l2 using setIntersectMerge.induct with
  | case1 l2 => simp [setIntersectMerge]
  | case2 a as => simp [setIntersectMerge]
  | case3 a as b bs hab ih =>
    rw [setIntersectMerge, if_pos hab]
    exact ih.cons a
  | case4 a as b bs hab hba ih =>
    rw [setIntersectMerge, if_neg hab, if_pos hba]
    exact ih
  | case5 a as b bs hab hba ih =>
    rw [setIntersectMerge, if_neg hab, if_neg hba]
    exact ih.cons₂ a

theorem length_sortStrings (l : List String) :
    (sortStrings l).length = l.length :=
  (sortStrings_perm l).length_eq

theorem nodup_sortStrings {l : List String} (h : l.Nodup) :
    (sortStrings l).Nodup :=
  ((sortStrings_perm l).nodup_iff).mpr h

theorem IntersectInPlace_subset {cur e0 : List String} :
    ∀ x ∈ IntersectInPlace cur e0, x ∈ cur := by
  intro x hx
  rw [IntersectInPlace] at hx
  exact mem_sortStrings.mp
    ((setIntersectMerge_sublist (sortStrings cur) (sortStrings e0)).subset hx)

theorem IntersectInPlace_length_iff {cur e0 : List String} (h : cur.Nodup) :
    (IntersectInPlace cur e0).length = cur.length ↔
      (∀ x, x ∈ IntersectInPlace cur e0 ↔ x ∈ cur) := by
  have hsub : List.Sublist (IntersectInPlace cur e0) (sortStrings cur) :=
    setIntersectMerge_sublist (sortStrings cur) (sortStrings e0)
  constructor
  · intro hlen
    have hE : IntersectInPlace cur e0 = sortStrings cur :=
      hsub.eq_of_length (by rw [hlen, length_sortStrings])
    intro x
    rw [hE, mem_sortStrings]
  · intro hmem
    have hnodE : (IntersectInPlace cur e0).Nodup :=
      (nodup_sortStrings h).sublist hsub
    have hfs : (IntersectInPlace cur e0).toFinset = cur.toFinset := by
      ext x
      simp only [List.mem_toFinset]
      exact hmem x
    calc (IntersectInPlace cur e0).length
        = (IntersectInPlace cur e0).toFinset.card :=
          (List.toFinset_card_of_nodup hnodE).symm
      _ = cur.toFinset.card := by rw [hfs]
      _ = cur.length := List.toFinset_card_of_nodup h

/-- C10 counterexample: when the current atrace app list carries a
duplicate, the size-only comparison fires (the intersected expected list is
shorter) although the expected and current lists are equal as sets; the
claimed equivalence is false for such states. -/
theorem atrace_changed_counterexample :
    ({ sampleState with atrace_apps := ["x", "x"] }).atrace_apps.length ≠
      (IntersectInPlace
        ({ sampleState with atrace_apps := ["x", "x"] }).atrace_apps
        (computeExpected
          [(2, ⟨⟨[]⟩, ["x"], [], false⟩)]).2.1).length ∧
    (∀ y, y ∈ IntersectInPlace
        ({ sampleState with atrace_apps := ["x", "x"] }).atrace_apps
        (computeExpected [(2, ⟨⟨[]⟩, ["x"], [], false⟩)]).2.1 ↔
      y ∈ ({ sampleState with atrace_apps := ["x", "x"] }).atrace_apps) := by
  have hval : IntersectInPlace
      ({ sampleState with atrace_apps := ["x", "x"] }).atrace_apps
      (computeExpected [(2, ⟨⟨[]⟩, ["x"], [], false⟩)]).2.1 = ["x"] := by
    simp +decide [sampleState, IntersectInPlace, computeExpected,
      UnionInPlace, sortStrings, insortStr, setUnionMerge, setIntersectMerge,
      efEnableEventsFrom]
  refine ⟨by rw [hval]; simp [sampleState], ?_⟩
  intro y
  rw [hval]
  simp [sampleState, List.mem_cons]

/-- C10 amended: after the intersections of `RemoveConfig`, the expected
apps and categories are subsets of the current global atrace lists;
and, provided the current lists are duplicate-free, the size-only
comparison computing `atrace_changed` is true exactly when the expected
sets differ from the current sets as sets (with duplicates the comparison
can fire although the sets are equal). -/
theorem removeConfig_atrace_changed_iff
    (ds : List (Nat × FtraceDataSourceConfig)) (st : FtraceState)
    (hA : st.atrace_apps.Nodup) (hC : st.atrace_categories.Nodup) :
    (∀ x ∈ IntersectInPlace st.atrace_apps (computeExpected ds).2.1,
      x ∈ st.atrace_apps) ∧
    (∀ x ∈ IntersectInPlace st.atrace_categories (computeExpected ds).2.2,
      x ∈ st.atrace_categories) ∧
    ((st.atrace_apps.length ≠
        (IntersectInPlace st.atrace_apps (computeExpected ds).2.1).length ∨
      st.atrace_categories.length ≠
        (IntersectInPlace st.atrace_categories
          (computeExpected ds).2.2).length) ↔
      ¬ ((∀ x, x ∈ IntersectInPlace st.atrace_apps
            (computeExpected ds).2.1 ↔ x ∈ st.atrace_apps) ∧
         (∀ x, x ∈ IntersectInPlace st.atrace_categories
            (computeExpected ds).2.2 ↔ x ∈ st.atrace_categories))) := by
  refine ⟨IntersectInPlace_subset, IntersectInPlace_subset, ?_⟩
  have h1 := @IntersectInPlace_length_iff st.atrace_apps
    (computeExpected ds).2.1 hA
  have h2 := @IntersectInPlace_length_iff st.atrace_categories
    (computeExpected ds).2.2 hC
  constructor
  · intro hsz hmem
    rcases hsz with hsz | hsz
    · exact hsz ((h1.mpr hmem.1).symm)
    · exact hsz ((h2.mpr hmem.2).symm)
  · intro hne
    by_contra hcon
    push_neg at hcon
    exact hne ⟨h1.mp hcon.1.symm, h2.mp hcon.2.symm⟩

/-- Witness for C10: a duplicate-free current state where nothing changes,
so the comparison does not fire and the sets agree. -/
theorem removeConfig_atrace_changed_iff_witness :
    (∀ x ∈ IntersectInPlace
        ({ sampleState with atrace_apps := ["x"] }).atrace_apps
        (computeExpected [(2, ⟨⟨[]⟩, ["x"], [], false⟩)]).2.1,
      x ∈ ({ sampleState with atrace_apps := ["x"] }).atrace_apps) ∧
    ¬ (({ sampleState with atrace_apps := ["x"] }).atrace_apps.length ≠
        (IntersectInPlace
          ({ sampleState with atrace_apps := ["x"] }).atrace_apps
          (computeExpected [(2, ⟨⟨[]⟩, ["x"], [], false⟩)]).2.1).length ∨
       ({ sampleState with atrace_apps := ["x"] }).atrace_categories.length ≠
        (IntersectInPlace
          ({ sampleState with atrace_apps := ["x"] }).atrace_categories
          (computeExpected [(2, ⟨⟨[]⟩, ["x"], [], false⟩)]).2.2).length) := by
  have h := removeConfig_atrace_changed_iff
    [(2, ⟨⟨[]⟩, ["x"], [], false⟩)]
    { sampleState with atrace_apps := ["x"] }
    (by simp [sampleState]) (by simp [sampleState])
  refine ⟨h.1, ?_⟩
  intro hsz
  apply (h.2.2.mp hsz)
  constructor
  · intro x
    have hval : IntersectInPlace
        ({ sampleState with atrace_apps := ["x"] }).atrace_apps
        (computeExpected [(2, ⟨⟨[]⟩, ["x"], [], false⟩)]).2.1 = ["x"] := by
      simp +decide [sampleState, IntersectInPlace, computeExpected,
        UnionInPlace, sortStrings, insortStr, setUnionMerge,
        setIntersectMerge, efEnableEventsFrom]
    rw [hval]
  · intro x
    have hval : IntersectInPlace
        ({ sampleState with atrace_apps := ["x"] }).atrace_categories
        (computeExpected [(2, ⟨⟨[]⟩, ["x"], [], false⟩)]).2.2 = [] := by
      simp +decide [sampleState, IntersectInPlace, computeExpected,
        UnionInPlace, sortStrings, insortStr, setUnionMerge,
        setIntersectMerge, efEnableEventsFrom]
    rw [hval]
    simp [sampleState]

/-!
## C9 - GetFtraceEvents and the sched atrace category
-/

theorem mem_foldl_gnInsert_iff {β : Type} (f : β → GroupAndName)
    (l : List β) (s : List GroupAndName) (a : GroupAndName) :
    a ∈ l.foldl (fun acc e => gnInsert (f e) acc) s ↔
      (∃ e ∈ l, a = f e) ∨ a ∈ s := by
  induction l generalizing s with
  | nil => simp
  | cons x xs ih =>
    simp only [List.foldl_cons]
    rw [ih]
    simp only [mem_gnInsert, List.mem_cons]
    constructor
    · rintro (⟨e, he, rfl⟩ | heq | hs)
      · exact Or.inl ⟨e, Or.inr he, rfl⟩
      · exact Or.inl ⟨x, Or.inl rfl, heq⟩
      · exact Or.inr hs
    · rintro (⟨e, he | he, rfl⟩ | hs)
      · exact Or.inr (Or.inl (by rw [he]))
      · exact Or.inl ⟨e, he, rfl⟩
      · exact Or.inr (Or.inr hs)

theorem mem_AddEventGroup_iff {table : ProtoTranslationTable} {g : String}
    {s : List GroupAndName} {a : GroupAndName} :
    a ∈ AddEventGroup table g s ↔
      (∃ evs, table.getEventsByGroup g = some evs ∧
        ∃ e ∈ evs, a = ⟨g, e.name⟩) ∨ a ∈ s := by
  unfold AddEventGroup
  cases h : table.getEventsByGroup g with
  | none => simp [h]
  | some evs => simp [h, mem_foldl_gnInsert_iff]

theorem insertEvent_mono {a : GroupAndName} {g n : String}
    {s : List GroupAndName} (h : a ∈ s) : a ∈ InsertEvent g n s :=
  gnInsert_mem h

theorem insertEvent_self {g n : String} {s : List GroupAndName} :
    (⟨g, n⟩ : GroupAndName) ∈ InsertEvent g n s :=
  gnInsert_mem_self

theorem addEventGroup_mono {table : ProtoTranslationTable} {g : String}
    {a : GroupAndName} {s : List GroupAndName} (h : a ∈ s) :
    a ∈ AddEventGroup table g s :=
  mem_AddEventGroup_iff.mpr (Or.inr h)

theorem addEventGroup_self {table : ProtoTranslationTable} {g : String}
    {evs : List Event} (hg : table.getEventsByGroup g = some evs)
    {e : Event} (he : e ∈ evs) (s : List GroupAndName) :
    (⟨g, e.name⟩ : GroupAndName) ∈ AddEventGroup table g s :=
  mem_AddEventGroup_iff.mpr (Or.inl ⟨evs, hg, e, he, rfl⟩)

theorem ite_mem_both {p : Prop} [Decidable p] {x : GroupAndName}
    {t e : List GroupAndName} (ht : x ∈ t) (he : x ∈ e) :
    x ∈ if p then t else e := by
  split
  · exact ht
  · exact he

theorem ite_mem_elim {p : Prop} [Decidable p] {x : GroupAndName}
    {t e : List GroupAndName} (h : x ∈ (if p then t else e)) :
    x ∈ t ∨ x ∈ e := by
  split at h
  · exact Or.inl h
  · exact Or.inr h

theorem expandGfx_mono {table : ProtoTranslationTable} {a : GroupAndName}
    {s : List GroupAndName} (h : a ∈ s) : a ∈ expandGfx table s := by
  simp only [expandGfx, InsertEvent, mem_gnInsert, mem_AddEventGroup_iff, h,
    or_true]

theorem expandIon_mono {table : ProtoTranslationTable} {a : GroupAndName}
    {s : List GroupAndName} (h : a ∈ s) : a ∈ expandIon table s := by
  simp only [expandIon, InsertEvent, mem_gnInsert, mem_AddEventGroup_iff, h,
    or_true]

theorem expandSched_mono {table : ProtoTranslationTable} {a : GroupAndName}
    {s : List GroupAndName} (h : a ∈ s) : a ∈ expandSched table s := by
  simp only [expandSched, InsertEvent, mem_gnInsert, mem_AddEventGroup_iff, h,
    or_true]

theorem expandIrq_mono {table : ProtoTranslationTable} {a : GroupAndName}
    {s : List GroupAndName} (h : a ∈ s) : a ∈ expandIrq table s := by
  simp only [expandIrq, InsertEvent, mem_gnInsert, mem_AddEventGroup_iff, h,
    or_true]

theorem expandIrqoff_mono {table : ProtoTranslationTable} {a : GroupAndName}
    {s : List GroupAndName} (h : a ∈ s) : a ∈ expandIrqoff table s := by
  simp only [expandIrqoff, InsertEvent, mem_gnInsert, mem_AddEventGroup_iff, h,
    or_true]

theorem expandPreemptoff_mono {table : ProtoTranslationTable} {a : GroupAndName}
    {s : List GroupAndName} (h : a ∈ s) : a ∈ expandPreemptoff table s := by
  simp only [expandPreemptoff, InsertEvent, mem_gnInsert, mem_AddEventGroup_iff, h,
    or_true]

theorem expandI2c_mono {table : ProtoTranslationTable} {a : GroupAndName}
    {s : List GroupAndName} (h : a ∈ s) : a ∈ expandI2c table s := by
  simp only [expandI2c, InsertEvent, mem_gnInsert, mem_AddEventGroup_iff, h,
    or_true]

theorem expandFreq_mono {table : ProtoTranslationTable} {a : GroupAndName}
    {s : List GroupAndName} (h : a ∈ s) : a ∈ expandFreq table s := by
  simp only [expandFreq, InsertEvent, mem_gnInsert, mem_AddEventGroup_iff, h,
    or_true]

theorem expandMembus_mono {table : ProtoTranslationTable} {a : GroupAndName}
    {s : List GroupAndName} (h : a ∈ s) : a ∈ expandMembus table s := by
  simp only [expandMembus, InsertEvent, mem_gnInsert, mem_AddEventGroup_iff, h,
    or_true]

theorem expandIdle_mono {table : ProtoTranslationTable} {a : GroupAndName}
    {s : List GroupAndName} (h : a ∈ s) : a ∈ expandIdle table s := by
  simp only [expandIdle, InsertEvent, mem_gnInsert, mem_AddEventGroup_iff, h,
    or_true]

theorem expandDisk_mono {table : ProtoTranslationTable} {a : GroupAndName}
    {s : List GroupAndName} (h : a ∈ s) : a ∈ expandDisk table s := by
  simp only [expandDisk, InsertEvent, mem_gnInsert, mem_AddEventGroup_iff, h,
    or_true]

theorem expandMmc_mono {table : ProtoTranslationTable} {a : GroupAndName}
    {s : List GroupAndName} (h : a ∈ s) : a ∈ expandMmc table s := by
  simp only [expandMmc, InsertEvent, mem_gnInsert, mem_AddEventGroup_iff, h,
    or_true]

theorem expandLoad_mono {table : ProtoTranslationTable} {a : GroupAndName}
    {s : List GroupAndName} (h : a ∈ s) : a ∈ expandLoad table s := by
  simp only [expandLoad, InsertEvent, mem_gnInsert, mem_AddEventGroup_iff, h,
    or_true]

theorem expandSync_mono {table : ProtoTranslationTable} {a : GroupAndName}
    {s : List GroupAndName} (h : a ∈ s) : a ∈ expandSync table s := by
  simp only [expandSync, InsertEvent, mem_gnInsert, mem_AddEventGroup_iff, h,
    or_true]

theorem expandWorkq_mono {table : ProtoTranslationTable} {a : GroupAndName}
    {s : List GroupAndName} (h : a ∈ s) : a ∈ expandWorkq table s := by
  simp only [expandWorkq, InsertEvent, mem_gnInsert, mem_AddEventGroup_iff, h,
    or_true]

theorem expandMemreclaim_mono {table : ProtoTranslationTable} {a : GroupAndName}
    {s : List GroupAndName} (h : a ∈ s) : a ∈ expandMemreclaim table s := by
  simp only [expandMemreclaim, InsertEvent, mem_gnInsert, mem_AddEventGroup_iff, h,
    or_true]

theorem expandRegulators_mono {table : ProtoTranslationTable} {a : GroupAndName}
    {s : List GroupAndName} (h : a ∈ s) : a ∈ expandRegulators table s := by
  simp only [expandRegulators, InsertEvent, mem_gnInsert, mem_AddEventGroup_iff, h,
    or_true]

theorem expandBinderDriver_mono {table : ProtoTranslationTable} {a : GroupAndName}
    {s : List GroupAndName} (h : a ∈ s) : a ∈ expandBinderDriver table s := by
  simp only [expandBinderDriver, InsertEvent, mem_gnInsert, mem_AddEventGroup_iff, h,
    or_true]

theorem expandBinderLock_mono {table : ProtoTranslationTable} {a : GroupAndName}
    {s : List GroupAndName} (h : a ∈ s) : a ∈ expandBinderLock table s := by
  simp only [expandBinderLock, InsertEvent, mem_gnInsert, mem_AddEventGroup_iff, h,
    or_true]

theorem expandPagecache_mono {table : ProtoTranslationTable} {a : GroupAndName}
    {s : List GroupAndName} (h : a ∈ s) : a ∈ expandPagecache table s := by
  simp only [expandPagecache, InsertEvent, mem_gnInsert, mem_AddEventGroup_iff, h,
    or_true]

theorem expandMemory_mono {table : ProtoTranslationTable} {a : GroupAndName}
    {s : List GroupAndName} (h : a ∈ s) : a ∈ expandMemory table s := by
  simp only [expandMemory, InsertEvent, mem_gnInsert, mem_AddEventGroup_iff, h,
    or_true]

theorem expandThermal_mono {table : ProtoTranslationTable} {a : GroupAndName}
    {s : List GroupAndName} (h : a ∈ s) : a ∈ expandThermal table s := by
  simp only [expandThermal, InsertEvent, mem_gnInsert, mem_AddEventGroup_iff, h,
    or_true]

theorem expandGfx_wakeup {table : ProtoTranslationTable}
    {s : List GroupAndName}
    (h : (⟨"sched", "sched_wakeup"⟩ : GroupAndName) ∈ expandGfx table s) :
    (⟨"sched", "sched_wakeup"⟩ : GroupAndName) ∈ s := by
  simp +decide [expandGfx, InsertEvent, mem_gnInsert, mem_AddEventGroup_iff,
    GroupAndName.mk.injEq] at h
  exact h

theorem expandIon_wakeup {table : ProtoTranslationTable}
    {s : List GroupAndName}
    (h : (⟨"sched", "sched_wakeup"⟩ : GroupAndName) ∈ expandIon table s) :
    (⟨"sched", "sched_wakeup"⟩ : GroupAndName) ∈ s := by
  simp +decide [expandIon, InsertEvent, mem_gnInsert, mem_AddEventGroup_iff,
    GroupAndName.mk.injEq] at h
  exact h

theorem expandSched_wakeup {table : ProtoTranslationTable}
    {s : List GroupAndName}
    (h : (⟨"sched", "sched_wakeup"⟩ : GroupAndName) ∈ expandSched table s) :
    (⟨"sched", "sched_wakeup"⟩ : GroupAndName) ∈ s := by
  simp +decide [expandSched, InsertEvent, mem_gnInsert, mem_AddEventGroup_iff,
    GroupAndName.mk.injEq] at h
  exact h

theorem expandIrq_wakeup {table : ProtoTranslationTable}
    {s : List GroupAndName}
    (h : (⟨"sched", "sched_wakeup"⟩ : GroupAndName) ∈ expandIrq table s) :
    (⟨"sched", "sched_wakeup"⟩ : GroupAndName) ∈ s := by
  simp +decide [expandIrq, InsertEvent, mem_gnInsert, mem_AddEventGroup_iff,
    GroupAndName.mk.injEq] at h
  exact h

theorem expandIrqoff_wakeup {table : ProtoTranslationTable}
    {s : List GroupAndName}
    (h : (⟨"sched", "sched_wakeup"⟩ : GroupAndName) ∈ expandIrqoff table s) :
    (⟨"sched", "sched_wakeup"⟩ : GroupAndName) ∈ s := by
  simp +decide [expandIrqoff, InsertEvent, mem_gnInsert, mem_AddEventGroup_iff,
    GroupAndName.mk.injEq] at h
  exact h

theorem expandPreemptoff_wakeup {table : ProtoTranslationTable}
    {s : List GroupAndName}
    (h : (⟨"sched", "sched_wakeup"⟩ : GroupAndName) ∈ expandPreemptoff table s) :
    (⟨"sched", "sched_wakeup"⟩ : GroupAndName) ∈ s := by
  simp +decide [expandPreemptoff, InsertEvent, mem_gnInsert, mem_AddEventGroup_iff,
    GroupAndName.mk.injEq] at h
  exact h

theorem expandI2c_wakeup {table : ProtoTranslationTable}
    {s : List GroupAndName}
    (h : (⟨"sched", "sched_wakeup"⟩ : GroupAndName) ∈ expandI2c table s) :
    (⟨"sched", "sched_wakeup"⟩ : GroupAndName) ∈ s := by
  simp +decide [expandI2c, InsertEvent, mem_gnInsert, mem_AddEventGroup_iff,
    GroupAndName.mk.injEq] at h
  exact h

theorem expandFreq_wakeup {table : ProtoTranslationTable}
    {s : List GroupAndName}
    (h : (⟨"sched", "sched_wakeup"⟩ : GroupAndName) ∈ expandFreq table s) :
    (⟨"sched", "sched_wakeup"⟩ : GroupAndName) ∈ s := by
  simp +decide [expandFreq, InsertEvent, mem_gnInsert, mem_AddEventGroup_iff,
    GroupAndName.mk.injEq] at h
  exact h

theorem expandMembus_wakeup {table : ProtoTranslationTable}
    {s : List GroupAndName}
    (h : (⟨"sched", "sched_wakeup"⟩ : GroupAndName) ∈ expandMembus table s) :
    (⟨"sched", "sched_wakeup"⟩ : GroupAndName) ∈ s := by
  simp +decide [expandMembus, InsertEvent, mem_gnInsert, mem_AddEventGroup_iff,
    GroupAndName.mk.injEq] at h
  exact h

theorem expandIdle_wakeup {table : ProtoTranslationTable}
    {s : List GroupAndName}
    (h : (⟨"sched", "sched_wakeup"⟩ : GroupAndName) ∈ expandIdle table s) :
    (⟨"sched", "sched_wakeup"⟩ : GroupAndName) ∈ s := by
  simp +decide [expandIdle, InsertEvent, mem_gnInsert, mem_AddEventGroup_iff,
    GroupAndName.mk.injEq] at h
  exact h

theorem expandDisk_wakeup {table : ProtoTranslationTable}
    {s : List GroupAndName}
    (h : (⟨"sched", "sched_wakeup"⟩ : GroupAndName) ∈ expandDisk table s) :
    (⟨"sched", "sched_wakeup"⟩ : GroupAndName) ∈ s := by
  simp +decide [expandDisk, InsertEvent, mem_gnInsert, mem_AddEventGroup_iff,
    GroupAndName.mk.injEq] at h
  exact h

theorem expandMmc_wakeup {table : ProtoTranslationTable}
    {s : List GroupAndName}
    (h : (⟨"sched", "sched_wakeup"⟩ : GroupAndName) ∈ expandMmc table s) :
    (⟨"sched", "sched_wakeup"⟩ : GroupAndName) ∈ s := by
  simp +decide [expandMmc, InsertEvent, mem_gnInsert, mem_AddEventGroup_iff,
    GroupAndName.mk.injEq] at h
  exact h

theorem expandLoad_wakeup {table : ProtoTranslationTable}
    {s : List GroupAndName}
    (h : (⟨"sched", "sched_wakeup"⟩ : GroupAndName) ∈ expandLoad table s) :
    (⟨"sched", "sched_wakeup"⟩ : GroupAndName) ∈ s := by
  simp +decide [expandLoad, InsertEvent, mem_gnInsert, mem_AddEventGroup_iff,
    GroupAndName.mk.injEq] at h
  exact h

theorem expandSync_wakeup {table : ProtoTranslationTable}
    {s : List GroupAndName}
    (h : (⟨"sched", "sched_wakeup"⟩ : GroupAndName) ∈ expandSync table s) :
    (⟨"sched", "sched_wakeup"⟩ : GroupAndName) ∈ s := by
  simp +decide [expandSync, InsertEvent, mem_gnInsert, mem_AddEventGroup_iff,
    GroupAndName.mk.injEq] at h
  exact h

theorem expandWorkq_wakeup {table : ProtoTranslationTable}
    {s : List GroupAndName}
    (h : (⟨"sched", "sched_wakeup"⟩ : GroupAndName) ∈ expandWorkq table s) :
    (⟨"sched", "sched_wakeup"⟩ : GroupAndName) ∈ s := by
  simp +decide [expandWorkq, InsertEvent, mem_gnInsert, mem_AddEventGroup_iff,
    GroupAndName.mk.injEq] at h
  exact h

theorem expandMemreclaim_wakeup {table : ProtoTranslationTable}
    {s : List GroupAndName}
    (h : (⟨"sched", "sched_wakeup"⟩ : GroupAndName) ∈ expandMemreclaim table s) :
    (⟨"sched", "sched_wakeup"⟩ : GroupAndName) ∈ s := by
  simp +decide [expandMemreclaim, InsertEvent, mem_gnInsert, mem_AddEventGroup_iff,
    GroupAndName.mk.injEq] at h
  exact h

theorem expandRegulators_wakeup {table : ProtoTranslationTable}
    {s : List GroupAndName}
    (h : (⟨"sched", "sched_wakeup"⟩ : GroupAndName) ∈ expandRegulators table s) :
    (⟨"sched", "sched_wakeup"⟩ : GroupAndName) ∈ s := by
  simp +decide [expandRegulators, InsertEvent, mem_gnInsert, mem_AddEventGroup_iff,
    GroupAndName.mk.injEq] at h
  exact h

theorem expandBinderDriver_wakeup {table : ProtoTranslationTable}
    {s : List GroupAndName}
    (h : (⟨"sched", "sched_wakeup"⟩ : GroupAndName) ∈ expandBinderDriver table s) :
    (⟨"sched", "sched_wakeup"⟩ : GroupAndName) ∈ s := by
  simp +decide [expandBinderDriver, InsertEvent, mem_gnInsert, mem_AddEventGroup_iff,
    GroupAndName.mk.injEq] at h
  exact h

theorem expandBinderLock_wakeup {table : ProtoTranslationTable}
    {s : List GroupAndName}
    (h : (⟨"sched", "sched_wakeup"⟩ : GroupAndName) ∈ expandBinderLock table s) :
    (⟨"sched", "sched_wakeup"⟩ : GroupAndName) ∈ s := by
  simp +decide [expandBinderLock, InsertEvent, mem_gnInsert, mem_AddEventGroup_iff,
    GroupAndName.mk.injEq] at h
  exact h

theorem expandPagecache_wakeup {table : ProtoTranslationTable}
    {s : List GroupAndName}
    (h : (⟨"sched", "sched_wakeup"⟩ : GroupAndName) ∈ expandPagecache table s) :
    (⟨"sched", "sched_wakeup"⟩ : GroupAndName) ∈ s := by
  simp +decide [expandPagecache, InsertEvent, mem_gnInsert, mem_AddEventGroup_iff,
    GroupAndName.mk.injEq] at h
  exact h

theorem expandMemory_wakeup {table : ProtoTranslationTable}
    {s : List GroupAndName}
    (h : (⟨"sched", "sched_wakeup"⟩ : GroupAndName) ∈ expandMemory table s) :
    (⟨"sched", "sched_wakeup"⟩ : GroupAndName) ∈ s := by
  simp +decide [expandMemory, InsertEvent, mem_gnInsert, mem_AddEventGroup_iff,
    GroupAndName.mk.injEq] at h
  exact h

theorem expandThermal_wakeup {table : ProtoTranslationTable}
    {s : List GroupAndName}
    (h : (⟨"sched", "sched_wakeup"⟩ : GroupAndName) ∈ expandThermal table s) :
    (⟨"sched", "sched_wakeup"⟩ : GroupAndName) ∈ s := by
  simp +decide [expandThermal, InsertEvent, mem_gnInsert, mem_AddEventGroup_iff,
    GroupAndName.mk.injEq] at h
  exact h

theorem expandAtraceCategory_mono (table : ProtoTranslationTable)
    (c : String) {a : GroupAndName} {s : List GroupAndName} (h : a ∈ s) :
    a ∈ expandAtraceCategory table c s := by
  unfold expandAtraceCategory
  refine ite_mem_both (expandGfx_mono h) ?_
  refine ite_mem_both (expandIon_mono h) ?_
  refine ite_mem_both (expandSched_mono h) ?_
  refine ite_mem_both (expandIrq_mono h) ?_
  refine ite_mem_both (expandIrqoff_mono h) ?_
  refine ite_mem_both (expandPreemptoff_mono h) ?_
  refine ite_mem_both (expandI2c_mono h) ?_
  refine ite_mem_both (expandFreq_mono h) ?_
  refine ite_mem_both (expandMembus_mono h) ?_
  refine ite_mem_both (expandIdle_mono h) ?_
  refine ite_mem_both (expandDisk_mono h) ?_
  refine ite_mem_both (expandMmc_mono h) ?_
  refine ite_mem_both (expandLoad_mono h) ?_
  refine ite_mem_both (expandSync_mono h) ?_
  refine ite_mem_both (expandWorkq_mono h) ?_
  refine ite_mem_both (expandMemreclaim_mono h) ?_
  refine ite_mem_both (expandRegulators_mono h) ?_
  refine ite_mem_both (expandBinderDriver_mono h) ?_
  refine ite_mem_both (expandBinderLock_mono h) ?_
  refine ite_mem_both (expandPagecache_mono h) ?_
  refine ite_mem_both (expandMemory_mono h) ?_
  refine ite_mem_both (expandThermal_mono h) ?_
  exact h

theorem foldl_expand_mono (table : ProtoTranslationTable)
    (cats : List String) {a : GroupAndName} :
    ∀ {s : List GroupAndName}, a ∈ s →
      a ∈ cats.foldl (fun evs c => expandAtraceCategory table c evs) s := by
  induction cats with
  | nil => intro s h; exact h
  | cons c cs ih =>
    intro s h
    exact ih (expandAtraceCategory_mono table c h)

theorem foldl_expand_sched (table : ProtoTranslationTable)
    {cats : List String} (hc : "sched" ∈ cats) {a : GroupAndName}
    (ha : ∀ s, a ∈ expandAtraceCategory table "sched" s) :
    ∀ s, a ∈ cats.foldl (fun evs c => expandAtraceCategory table c evs) s := by
  induction cats with
  | nil => cases hc
  | cons c cs ih =>
    intro s
    rcases List.mem_cons.mp hc with he | hm
    · rw [List.foldl_cons, ← he]
      exact foldl_expand_mono table cs (ha s)
    · rw [List.foldl_cons]
      exact ih hm _

theorem expand_sched_eq (table : ProtoTranslationTable)
    (s : List GroupAndName) :
    expandAtraceCategory table "sched" s = expandSched table s :=
  rfl

theorem expand_sched_targets (table : ProtoTranslationTable)
    (s : List GroupAndName) :
    (⟨"sched", "sched_switch"⟩ : GroupAndName) ∈
      expandAtraceCategory table "sched" s ∧
    (⟨"sched", "sched_waking"⟩ : GroupAndName) ∈
      expandAtraceCategory table "sched" s ∧
    (⟨"sched", "sched_blocked_reason"⟩ : GroupAndName) ∈
      expandAtraceCategory table "sched" s ∧
    (⟨"sched", "sched_cpu_hotplug"⟩ : GroupAndName) ∈
      expandAtraceCategory table "sched" s ∧
    (⟨"sched", "sched_pi_setprio"⟩ : GroupAndName) ∈
      expandAtraceCategory table "sched" s ∧
    (⟨"sched", "sched_process_exit"⟩ : GroupAndName) ∈
      expandAtraceCategory table "sched" s ∧
    (⟨"oom", "oom_score_adj_update"⟩ : GroupAndName) ∈
      expandAtraceCategory table "sched" s ∧
    (⟨"task", "task_rename"⟩ : GroupAndName) ∈
      expandAtraceCategory table "sched" s ∧
    (⟨"task", "task_newtask"⟩ : GroupAndName) ∈
      expandAtraceCategory table "sched" s ∧
    (⟨"systrace", "0"⟩ : GroupAndName) ∈
      expandAtraceCategory table "sched" s ∧
    (⟨"scm", "scm_call_start"⟩ : GroupAndName) ∈
      expandAtraceCategory table "sched" s ∧
    (⟨"scm", "scm_call_end"⟩ : GroupAndName) ∈
      expandAtraceCategory table "sched" s := by
  rw [expand_sched_eq]
  refine ⟨?_, ?_, ?_, ?_, ?_, ?_, ?_, ?_, ?_, ?_, ?_, ?_⟩ <;>
    simp +decide [expandSched, InsertEvent, mem_gnInsert,
      mem_AddEventGroup_iff, GroupAndName.mk.injEq]

theorem expand_sched_group (table : ProtoTranslationTable)
    (s : List GroupAndName) {g : String} {evs : List Event}
    (hg : table.getEventsByGroup g = some evs) {e : Event} (he : e ∈ evs)
    (hgok : g = "cgroup" ∨ g = "systrace" ∨ g = "scm") :
    (⟨g, e.name⟩ : GroupAndName) ∈ expandAtraceCategory table "sched" s := by
  rw [expand_sched_eq]
  unfold expandSched
  rcases hgok with h | h | h <;> subst h
  · iterate 2 apply insertEvent_mono
    apply addEventGroup_mono
    apply insertEvent_mono
    apply addEventGroup_mono
    iterate 12 apply insertEvent_mono
    exact addEventGroup_self hg he _
  · iterate 2 apply insertEvent_mono
    apply addEventGroup_mono
    apply insertEvent_mono
    exact addEventGroup_self hg he _
  · iterate 2 apply insertEvent_mono
    exact addEventGroup_self hg he _

theorem expand_sched_wakeup (table : ProtoTranslationTable) (c : String)
    {s : List GroupAndName}
    (h : (⟨"sched", "sched_wakeup"⟩ : GroupAndName) ∈
      expandAtraceCategory table c s) :
    (⟨"sched", "sched_wakeup"⟩ : GroupAndName) ∈ s := by
  unfold expandAtraceCategory at h
  rcases ite_mem_elim h with h | h
  · exact expandGfx_wakeup h
  rcases ite_mem_elim h with h | h
  · exact expandIon_wakeup h
  rcases ite_mem_elim h with h | h
  · exact expandSched_wakeup h
  rcases ite_mem_elim h with h | h
  · exact expandIrq_wakeup h
  rcases ite_mem_elim h with h | h
  · exact expandIrqoff_wakeup h
  rcases ite_mem_elim h with h | h
  · exact expandPreemptoff_wakeup h
  rcases ite_mem_elim h with h | h
  · exact expandI2c_wakeup h
  rcases ite_mem_elim h with h | h
  · exact expandFreq_wakeup h
  rcases ite_mem_elim h with h | h
  · exact expandMembus_wakeup h
  rcases ite_mem_elim h with h | h
  · exact expandIdle_wakeup h
  rcases ite_mem_elim h with h | h
  · exact expandDisk_wakeup h
  rcases ite_mem_elim h with h | h
  · exact expandMmc_wakeup h
  rcases ite_mem_elim h with h | h
  · exact expandLoad_wakeup h
  rcases ite_mem_elim h with h | h
  · exact expandSync_wakeup h
  rcases ite_mem_elim h with h | h
  · exact expandWorkq_wakeup h
  rcases ite_mem_elim h with h | h
  · exact expandMemreclaim_wakeup h
  rcases ite_mem_elim h with h | h
  · exact expandRegulators_wakeup h
  rcases ite_mem_elim h with h | h
  · exact expandBinderDriver_wakeup h
  rcases ite_mem_elim h with h | h
  · exact expandBinderLock_wakeup h
  rcases ite_mem_elim h with h | h
  · exact expandPagecache_wakeup h
  rcases ite_mem_elim h with h | h
  · exact expandMemory_wakeup h
  rcases ite_mem_elim h with h | h
  · exact expandThermal_wakeup h
  exact h

theorem foldl_expand_sched_wakeup_free (table : ProtoTranslationTable)
    (cats : List String) :
    ∀ {s : List GroupAndName},
      (⟨"sched", "sched_wakeup"⟩ : GroupAndName) ∉ s →
      (⟨"sched", "sched_wakeup"⟩ : GroupAndName) ∉
        cats.foldl (fun evs c => expandAtraceCategory table c evs) s := by
  induction cats with
  | nil => intro s h; exact h
  | cons c cs ih =>
    intro s h
    exact ih (fun hx => h (expand_sched_wakeup table c hx))

/-- C9: whenever the request requires atrace, `GetFtraceEvents` includes
`ftrace/print`; and whenever the atrace categories contain `sched` and the
explicit event list is empty, the result contains the hard-coded sched
events (including `systrace/0` and the scm call events), the whole
`cgroup`, `systrace` and `scm` groups known to the table, and does not
contain `sched/sched_wakeup`. -/
theorem getFtraceEvents_atrace_spec (env : Env) (request : FtraceConfig)
    (table : ProtoTranslationTable) :
    (RequiresAtrace request = true →
      (⟨"ftrace", "print"⟩ : GroupAndName) ∈
        GetFtraceEvents env request table) ∧
    ("sched" ∈ request.atrace_categories → request.ftrace_events = [] →
      ((⟨"sched", "sched_switch"⟩ : GroupAndName) ∈
          GetFtraceEvents env request table ∧
       (⟨"sched", "sched_waking"⟩ : GroupAndName) ∈
          GetFtraceEvents env request table ∧
       (⟨"sched", "sched_blocked_reason"⟩ : GroupAndName) ∈
          GetFtraceEvents env request table ∧
       (⟨"sched", "sched_cpu_hotplug"⟩ : GroupAndName) ∈
          GetFtraceEvents env request table ∧
       (⟨"sched", "sched_pi_setprio"⟩ : GroupAndName) ∈
          GetFtraceEvents env request table ∧
       (⟨"sched", "sched_process_exit"⟩ : GroupAndName) ∈
          GetFtraceEvents env request table ∧
       (⟨"oom", "oom_score_adj_update"⟩ : GroupAndName) ∈
          GetFtraceEvents env request table ∧
       (⟨"task", "task_rename"⟩ : GroupAndName) ∈
          GetFtraceEvents env request table ∧
       (⟨"task", "task_newtask"⟩ : GroupAndName) ∈
          GetFtraceEvents env request table ∧
       (⟨"systrace", "0"⟩ : GroupAndName) ∈
          GetFtraceEvents env request table ∧
       (⟨"scm", "scm_call_start"⟩ : GroupAndName) ∈
          GetFtraceEvents env request table ∧
       (⟨"scm", "scm_call_end"⟩ : GroupAndName) ∈
          GetFtraceEvents env request table) ∧
      (∀ evs, table.getEventsByGroup "cgroup" = some evs →
        ∀ e ∈ evs, (⟨"cgroup", e.name⟩ : GroupAndName) ∈
          GetFtraceEvents env request table) ∧
      (∀ evs, table.getEventsByGroup "systrace" = some evs →
        ∀ e ∈ evs, (⟨"systrace", e.name⟩ : GroupAndName) ∈
          GetFtraceEvents env request table) ∧
      (∀ evs, table.getEventsByGroup "scm" = some evs →
        ∀ e ∈ evs, (⟨"scm", e.name⟩ : GroupAndName) ∈
          GetFtraceEvents env request table) ∧
      (⟨"sched", "sched_wakeup"⟩ : GroupAndName) ∉
        GetFtraceEvents env request table) := by
  constructor
  · intro hreq
    simp only [GetFtraceEvents]
    rw [if_pos hreq]
    exact foldl_expand_mono table _ insertEvent_self
  · intro hsched hempty
    have hreq : RequiresAtrace request = true := by
      have hne : request.atrace_categories ≠ [] := List.ne_nil_of_mem hsched
      simp [RequiresAtrace, List.isEmpty_iff, hne]
    have heq : GetFtraceEvents env request table =
        request.atrace_categories.foldl
          (fun evs c => expandAtraceCategory table c evs)
          (InsertEvent "ftrace" "print" []) := by
      simp only [GetFtraceEvents, hempty, List.foldl_nil]
      rw [if_pos hreq]
    rw [heq]
    refine ⟨⟨?_, ?_, ?_, ?_, ?_, ?_, ?_, ?_, ?_, ?_, ?_, ?_⟩, ?_, ?_, ?_, ?_⟩
    · exact foldl_expand_sched table hsched
        (fun s => (expand_sched_targets table s).1) _
    · exact foldl_expand_sched table hsched
        (fun s => (expand_sched_targets table s).2.1) _
    · exact foldl_expand_sched table hsched
        (fun s => (expand_sched_targets table s).2.2.1) _
    · exact foldl_expand_sched table hsched
        (fun s => (expand_sched_targets table s).2.2.2.1) _
    · exact foldl_expand_sched table hsched
        (fun s => (expand_sched_targets table s).2.2.2.2.1) _
    · exact foldl_expand_sched table hsched
        (fun s => (expand_sched_targets table s).2.2.2.2.2.1) _
    · exact foldl_expand_sched table hsched
        (fun s => (expand_sched_targets table s).2.2.2.2.2.2.1) _
    · exact foldl_expand_sched table hsched
        (fun s => (expand_sched_targets table s).2.2.2.2.2.2.2.1) _
    · exact foldl_expand_sched table hsched
        (fun s => (expand_sched_targets table s).2.2.2.2.2.2.2.2.1) _
    · exact foldl_expand_sched table hsched
        (fun s => (expand_sched_targets table s).2.2.2.2.2.2.2.2.2.1) _
    · exact foldl_expand_sched table hsched
        (fun s => (expand_sched_targets table s).2.2.2.2.2.2.2.2.2.2.1) _
    · exact foldl_expand_sched table hsched
        (fun s => (expand_sched_targets table s).2.2.2.2.2.2.2.2.2.2.2) _
    · intro evs hg e he
      exact foldl_expand_sched table hsched
        (fun s => expand_sched_group table s hg he (Or.inl rfl)) _
    · intro evs hg e he
      exact foldl_expand_sched table hsched
        (fun s => expand_sched_group table s hg he (Or.inr (Or.inl rfl))) _
    · intro evs hg e he
      exact foldl_expand_sched table hsched
        (fun s => expand_sched_group table s hg he (Or.inr (Or.inr rfl))) _
    · exact foldl_expand_sched_wakeup_free table _ (by decide)

/-- Witness for C9: a request with only the `sched` atrace category, on the
sample table, yields `ftrace/print` and `sched/sched_switch`, the whole
sample cgroup group, and not `sched/sched_wakeup`. -/
theorem getFtraceEvents_atrace_spec_witness :
    (⟨"ftrace", "print"⟩ : GroupAndName) ∈
      GetFtraceEvents sampleEnv ⟨[], ["sched"], [], 0, false⟩ sampleTable ∧
    (⟨"sched", "sched_switch"⟩ : GroupAndName) ∈
      GetFtraceEvents sampleEnv ⟨[], ["sched"], [], 0, false⟩ sampleTable ∧
    (⟨"cgroup", "cgroup_mkdir"⟩ : GroupAndName) ∈
      GetFtraceEvents sampleEnv ⟨[], ["sched"], [], 0, false⟩ sampleTable ∧
    (⟨"sched", "sched_wakeup"⟩ : GroupAndName) ∉
      GetFtraceEvents sampleEnv ⟨[], ["sched"], [], 0, false⟩ sampleTable := by
  have h := getFtraceEvents_atrace_spec sampleEnv
    ⟨[], ["sched"], [], 0, false⟩ sampleTable
  have h2 := h.2 (by decide) rfl
  refine ⟨h.1 (by decide), h2.1.1, ?_, h2.2.2.2.2⟩
  exact h2.2.1 [⟨"cgroup", "cgroup_mkdir", 10⟩] (by decide)
    ⟨"cgroup", "cgroup_mkdir", 10⟩ (by decide)

/-!
## C2 and C3 - RemoveConfig
-/

theorem efIsEventEnabled_iff {id : Nat} {f : EventFilter} :
    efIsEventEnabled id f = true ↔ id ∈ f.enabled_ids := by
  simp [efIsEventEnabled]

theorem mem_efDisableEvent {y id : Nat} {f : EventFilter} :
    y ∈ (efDisableEvent id f).enabled_ids ↔
      y ∈ f.enabled_ids ∧ y ≠ id := by
  simp [efDisableEvent, List.mem_filter]

theorem mem_foldl_efAdd {i : Nat} :
    ∀ (l : List Nat) (d : EventFilter),
      i ∈ (l.foldl (fun acc j => efAddEnabledEvent j acc) d).enabled_ids ↔
        i ∈ l ∨ i ∈ d.enabled_ids := by
  intro l
  induction l with
  | nil => intro d; simp
  | cons x xs ih =>
    intro d
    simp only [List.foldl_cons]
    rw [ih]
    simp only [efAddEnabledEvent, mem_natSetInsert, List.mem_cons]
    tauto

theorem mem_efEnableEventsFrom {src dst : EventFilter} {i : Nat} :
    i ∈ (efEnableEventsFrom src dst).enabled_ids ↔
      i ∈ src.enabled_ids ∨ i ∈ dst.enabled_ids := by
  unfold efEnableEventsFrom
  exact mem_foldl_efAdd src.enabled_ids dst

theorem computeExpected_mem_aux (i : Nat)
    (ds : List (Nat × FtraceDataSourceConfig)) :
    ∀ acc : EventFilter × List String × List String,
      (i ∈ (ds.foldl (fun acc p =>
        (efEnableEventsFrom p.2.event_filter acc.1,
         UnionInPlace p.2.atrace_apps acc.2.1,
         UnionInPlace p.2.atrace_categories acc.2.2)) acc).1.enabled_ids ↔
        (∃ p ∈ ds, i ∈ p.2.event_filter.enabled_ids) ∨
          i ∈ acc.1.enabled_ids) := by
  induction ds with
  | nil => intro acc; simp
  | cons p ps ih =>
    intro acc
    simp only [List.foldl_cons]
    rw [ih]
    simp only [mem_efEnableEventsFrom, List.mem_cons]
    constructor
    · rintro (⟨q, hq, hi⟩ | hi | hi)
      · exact Or.inl ⟨q, Or.inr hq, hi⟩
      · exact Or.inl ⟨p, Or.inl rfl, hi⟩
      · exact Or.inr hi
    · rintro (⟨q, hq | hq, hi⟩ | hi)
      · subst hq; exact Or.inr (Or.inl hi)
      · exact Or.inl ⟨q, hq, hi⟩
      · exact Or.inr (Or.inr hi)

theorem computeExpected_mem {ds : List (Nat × FtraceDataSourceConfig)}
    {i : Nat} :
    i ∈ (computeExpected ds).1.enabled_ids ↔
      ∃ p ∈ ds, i ∈ p.2.event_filter.enabled_ids := by
  unfold computeExpected
  rw [computeExpected_mem_aux i ds]
  simp

theorem removeDisableLoop_effects (env : Env)
    (table : ProtoTranslationTable) :
    ∀ (l : List Nat) (expected global : EventFilter),
      (removeDisableLoop env table l expected global).2 =
        (l.filter (fun i => !efIsEventEnabled i expected)).map
          (fun i => Effect.disableEvent (table.getEventById i).group
            (table.getEventById i).name) := by
  intro l
  induction l with
  | nil => intro expected global; rfl
  | cons a rest ih =>
    intro expected global
    by_cases he : efIsEventEnabled a expected = true
    · rw [removeDisableLoop, if_pos he, ih, List.filter_cons]
      simp [he]
    · have he' : efIsEventEnabled a expected = false := by simpa using he
      rw [removeDisableLoop, if_neg he]
      simp [he', ih, List.filter_cons]

theorem removeDisableLoop_subset (env : Env) (table : ProtoTranslationTable) :
    ∀ (l : List Nat) (expected global : EventFilter) (i : Nat),
      i ∈ (removeDisableLoop env table l expected global).1.enabled_ids →
      i ∈ global.enabled_ids := by
  intro l
  induction l with
  | nil => intro expected global i h; exact h
  | cons a rest ih =>
    intro expected global i h
    by_cases he : efIsEventEnabled a expected = true
    · rw [removeDisableLoop, if_pos he] at h
      exact ih _ _ _ h
    · rw [removeDisableLoop, if_neg he] at h
      have h2 := ih _ _ _ h
      by_cases hd : env.disableEventResult (table.getEventById a).group
          (table.getEventById a).name = true
      · rw [if_pos hd] at h2
        exact (mem_efDisableEvent.mp h2).1
      · rw [if_neg hd] at h2
        exact h2

theorem removeDisableLoop_not_in (env : Env) (table : ProtoTranslationTable) :
    ∀ (l : List Nat) (expected global : EventFilter) (e : Nat),
      (∀ i ∈ l, (table.getEventById i).ftrace_event_id = i) → e ∉ l →
      (e ∈ (removeDisableLoop env table l expected global).1.enabled_ids ↔
        e ∈ global.enabled_ids) := by
  intro l
  induction l with
  | nil => intro expected global e _ _; exact Iff.rfl
  | cons a rest ih =>
    intro expected global e hid hnl
    have hna : e ≠ a := fun h => hnl (h ▸ List.mem_cons_self a rest)
    have hnr : e ∉ rest := fun h => hnl (List.mem_cons_of_mem a h)
    have hidr : ∀ i ∈ rest, (table.getEventById i).ftrace_event_id = i :=
      fun i hi => hid i (List.mem_cons_of_mem a hi)
    by_cases he : efIsEventEnabled a expected = true
    · rw [removeDisableLoop, if_pos he]
      exact ih _ _ _ hidr hnr
    · rw [removeDisableLoop, if_neg he]
      rw [ih _ _ _ hidr hnr]
      by_cases hd : env.disableEventResult (table.getEventById a).group
          (table.getEventById a).name = true
      · rw [if_pos hd, hid a (List.mem_cons_self a rest)]
        rw [mem_efDisableEvent]
        simp [hna]
      · rw [if_neg hd]

theorem removeDisableLoop_expected (env : Env)
    (table : ProtoTranslationTable) :
    ∀ (l : List Nat) (expected global : EventFilter) (e : Nat),
      (∀ i ∈ l, (table.getEventById i).ftrace_event_id = i) →
      efIsEventEnabled e expected = true →
      (e ∈ (removeDisableLoop env table l expected global).1.enabled_ids ↔
        e ∈ global.enabled_ids) := by
  intro l
  induction l with
  | nil => intro expected global e _ _; exact Iff.rfl
  | cons a rest ih =>
    intro expected global e hid he
    have hidr : ∀ i ∈ rest, (table.getEventById i).ftrace_event_id = i :=
      fun i hi => hid i (List.mem_cons_of_mem a hi)
    by_cases ha : efIsEventEnabled a expected = true
    · rw [removeDisableLoop, if_pos ha]
      exact ih _ _ _ hidr he
    · have hna : e ≠ a := fun h => ha (h ▸ he)
      rw [removeDisableLoop, if_neg ha]
      rw [ih _ _ _ hidr he]
      by_cases hd : env.disableEventResult (table.getEventById a).group
          (table.getEventById a).name = true
      · rw [if_pos hd, hid a (List.mem_cons_self a rest)]
        rw [mem_efDisableEvent]
        simp [hna]
      · rw [if_neg hd]

theorem removeDisableLoop_processed (env : Env)
    (table : ProtoTranslationTable) :
    ∀ (l : List Nat) (expected global : EventFilter) (e : Nat),
      (∀ i ∈ l, (table.getEventById i).ftrace_event_id = i) → e ∈ l →
      efIsEventEnabled e expected = false →
      (e ∈ (removeDisableLoop env table l expected global).1.enabled_ids ↔
        (e ∈ global.enabled_ids ∧
          env.disableEventResult (table.getEventById e).group
            (table.getEventById e).name = false)) := by
  intro l
  induction l with
  | nil => intro expected global e _ hel _; cases hel
  | cons a rest ih =>
    intro expected global e hid hel he
    have hidr : ∀ i ∈ rest, (table.getEventById i).ftrace_event_id = i :=
      fun i hi => hid i (List.mem_cons_of_mem a hi)
    by_cases ha : efIsEventEnabled a expected = true
    · have hna : e ≠ a := by
        intro h
        rw [h, ha] at he
        cases he
      have her : e ∈ rest := (List.mem_cons.mp hel).resolve_left hna
      rw [removeDisableLoop, if_pos ha]
      exact ih _ _ _ hidr her he
    · rw [removeDisableLoop, if_neg ha]
      simp only []
      by_cases hea : e = a
      · subst hea
        by_cases hd : env.disableEventResult (table.getEventById e).group
            (table.getEventById e).name = true
        · rw [if_pos hd, hid e hel]
          constructor
          · intro hmem
            have h2 := removeDisableLoop_subset env table rest expected _ e hmem
            rw [mem_efDisableEvent] at h2
            exact absurd rfl h2.2
          · rintro ⟨_, hdf⟩
            simp [hd] at hdf
        · have hdf : env.disableEventResult (table.getEventById e).group
              (table.getEventById e).name = false := by simpa using hd
          rw [if_neg hd]
          by_cases her : e ∈ rest
          · rw [ih _ _ _ hidr her he]
          · rw [removeDisableLoop_not_in env table rest expected global e
              hidr her]
            simp [hdf]
      · have her : e ∈ rest := (List.mem_cons.mp hel).resolve_left hea
        rw [ih _ _ _ hidr her he]
        by_cases hd : env.disableEventResult (table.getEventById a).group
            (table.getEventById a).name = true
        · rw [if_pos hd, hid a (List.mem_cons_self a rest)]
          simp [mem_efDisableEvent, hea]
        · rw [if_neg hd]

theorem removeDisableLoop_no_effect_for_expected (env : Env)
    (table : ProtoTranslationTable) (l : List Nat)
    (expected global : EventFilter) (e : Nat)
    (he : efIsEventEnabled e expected = true)
    (hinj : ∀ i ∈ l,
      (table.getEventById i).group = (table.getEventById e).group →
      (table.getEventById i).name = (table.getEventById e).name → i = e) :
    Effect.disableEvent (table.getEventById e).group
      (table.getEventById e).name ∉
      (removeDisableLoop env table l expected global).2 := by
  rw [removeDisableLoop_effects]
  intro hmem
  rcases List.mem_map.mp hmem with ⟨i, hif, heq⟩
  rcases List.mem_filter.mp hif with ⟨hil, hcond⟩
  simp only [Effect.disableEvent.injEq] at heq
  have hie := hinj i hil heq.1 heq.2
  rw [hie, he] at hcond
  cases hcond

theorem removeDisableLoop_effect_present (env : Env)
    (table : ProtoTranslationTable) (l : List Nat)
    (expected global : EventFilter) (e : Nat) (hel : e ∈ l)
    (he : efIsEventEnabled e expected = false) :
    Effect.disableEvent (table.getEventById e).group
      (table.getEventById e).name ∈
      (removeDisableLoop env table l expected global).2 := by
  rw [removeDisableLoop_effects]
  refine List.mem_map.mpr ⟨e, ?_, rfl⟩
  refine List.mem_filter.mpr ⟨hel, ?_⟩
  simp [he]

theorem removeConfig_fst_eq_true {env : Env} {table : ProtoTranslationTable}
    {m : FtraceConfigMuxer} {config_id : Nat}
    (hsucc : ¬ (config_id = 0 ∨ ¬ m.ds_configs.any (fun p => p.1 = config_id))) :
    (RemoveConfig env table m config_id).1 = true := by
  simp only [RemoveConfig]
  rw [if_neg hsucc]

theorem removeConfig_guard_of_true {env : Env} {table : ProtoTranslationTable}
    {m : FtraceConfigMuxer} {config_id : Nat}
    (hok : (RemoveConfig env table m config_id).1 = true) :
    ¬ (config_id = 0 ∨ ¬ m.ds_configs.any (fun p => p.1 = config_id)) := by
  intro hcon
  rw [RemoveConfig, if_pos hcon] at hok
  cases hok

theorem removeConfig_ds {env : Env} {table : ProtoTranslationTable}
    {m : FtraceConfigMuxer} {config_id : Nat}
    (hsucc : ¬ (config_id = 0 ∨ ¬ m.ds_configs.any (fun p => p.1 = config_id))) :
    (RemoveConfig env table m config_id).2.1.ds_configs =
      m.ds_configs.filter (fun p => p.1 ≠ config_id) := by
  simp only [RemoveConfig]
  rw [if_neg hsucc]

set_option maxHeartbeats 1600000 in
theorem removeConfig_ftrace_events {env : Env}
    {table : ProtoTranslationTable} {m : FtraceConfigMuxer} {config_id : Nat}
    (hsucc : ¬ (config_id = 0 ∨ ¬ m.ds_configs.any (fun p => p.1 = config_id))) :
    (RemoveConfig env table m config_id).2.1.current_state.ftrace_events =
      (removeDisableLoop env table
        (efGetEnabledEvents m.current_state.ftrace_events)
        (computeExpected (m.ds_configs.filter (fun p => p.1 ≠ config_id))).1
        m.current_state.ftrace_events).1 := by
  simp only [RemoveConfig]
  rw [if_neg hsucc]
  simp only [DisableAtrace, StartAtrace]
  repeat' split
  all_goals rfl

set_option maxHeartbeats 1600000 in
theorem removeConfig_disable_effects {env : Env}
    {table : ProtoTranslationTable} {m : FtraceConfigMuxer} {config_id : Nat}
    (hsucc : ¬ (config_id = 0 ∨ ¬ m.ds_configs.any (fun p => p.1 = config_id)))
    (g n : String) :
    (Effect.disableEvent g n ∈ (RemoveConfig env table m config_id).2.2 ↔
      Effect.disableEvent g n ∈
        (removeDisableLoop env table
          (efGetEnabledEvents m.current_state.ftrace_events)
          (computeExpected (m.ds_configs.filter (fun p => p.1 ≠ config_id))).1
          m.current_state.ftrace_events).2) := by
  simp only [RemoveConfig]
  rw [if_neg hsucc]
  simp only [DisableAtrace, StartAtrace]
  repeat' split
  all_goals simp [List.mem_append]

/-- C2: whenever `RemoveConfig(id)` returns true, every event id that was
enabled in the kernel and is not in the union of the remaining configs'
filters gets a `DisableEvent` procfs call for its group and name, and it is
dropped from `GlobalState.ftrace_events` exactly when that call succeeds;
ids still claimed by a remaining config are never disabled and stay in
`GlobalState.ftrace_events`. The table is assumed coherent: `GetEventById`
returns the event with that id, and distinct enabled ids name distinct
`(group, name)` pairs. -/
theorem removeConfig_event_disabling (env : Env)
    (table : ProtoTranslationTable) (m : FtraceConfigMuxer) (config_id : Nat)
    (hid : ∀ i ∈ m.current_state.ftrace_events.enabled_ids,
      (table.getEventById i).ftrace_event_id = i)
    (hinj : ∀ i ∈ m.current_state.ftrace_events.enabled_ids,
      ∀ j ∈ m.current_state.ftrace_events.enabled_ids,
      (table.getEventById i).group = (table.getEventById j).group →
      (table.getEventById i).name = (table.getEventById j).name → i = j)
    (hok : (RemoveConfig env table m config_id).1 = true) :
    ∀ e ∈ m.current_state.ftrace_events.enabled_ids,
      ((¬ ∃ p ∈ (RemoveConfig env table m config_id).2.1.ds_configs,
          e ∈ p.2.event_filter.enabled_ids) →
        Effect.disableEvent (table.getEventById e).group
            (table.getEventById e).name ∈
          (RemoveConfig env table m config_id).2.2 ∧
        (e ∈ (RemoveConfig env table m
            config_id).2.1.current_state.ftrace_events.enabled_ids ↔
          env.disableEventResult (table.getEventById e).group
            (table.getEventById e).name = false)) ∧
      ((∃ p ∈ (RemoveConfig env table m config_id).2.1.ds_configs,
          e ∈ p.2.event_filter.enabled_ids) →
        e ∈ (RemoveConfig env table m
            config_id).2.1.current_state.ftrace_events.enabled_ids ∧
        Effect.disableEvent (table.getEventById e).group
            (table.getEventById e).name ∉
          (RemoveConfig env table m config_id).2.2) := by
  have hsucc := removeConfig_guard_of_true hok
  have hgl : efGetEnabledEvents m.current_state.ftrace_events =
      m.current_state.ftrace_events.enabled_ids := rfl
  intro e he
  have hel : e ∈ efGetEnabledEvents m.current_state.ftrace_events := by
    rw [hgl]; exact he
  have hidl : ∀ i ∈ efGetEnabledEvents m.current_state.ftrace_events,
      (table.getEventById i).ftrace_event_id = i := by
    rw [hgl]; exact hid
  have hexp : (∃ p ∈ (RemoveConfig env table m config_id).2.1.ds_configs,
      e ∈ p.2.event_filter.enabled_ids) ↔
      efIsEventEnabled e (computeExpected
        (m.ds_configs.filter (fun p => p.1 ≠ config_id))).1 = true := by
    rw [removeConfig_ds hsucc, efIsEventEnabled_iff, computeExpected_mem]
  constructor
  · intro hnot
    have hef : efIsEventEnabled e (computeExpected
        (m.ds_configs.filter (fun p => p.1 ≠ config_id))).1 = false := by
      rcases Bool.eq_false_or_eq_true (efIsEventEnabled e
        (computeExpected (m.ds_configs.filter
          (fun p => p.1 ≠ config_id))).1) with h | h
      · exact absurd (hexp.mpr h) hnot
      · exact h
    refine ⟨?_, ?_⟩
    · rw [removeConfig_disable_effects hsucc]
      exact removeDisableLoop_effect_present env table _ _ _ e hel hef
    · rw [removeConfig_ftrace_events hsucc,
        removeDisableLoop_processed env table _ _ _ e hidl hel hef]
      simp [he]
  · intro hyes
    have hef := hexp.mp hyes
    refine ⟨?_, ?_⟩
    · rw [removeConfig_ftrace_events hsucc,
        removeDisableLoop_expected env table _ _ _ e hidl hef]
      exact he
    · intro hmem
      rw [removeConfig_disable_effects hsucc] at hmem
      refine removeDisableLoop_no_effect_for_expected env table _ _ _ e hef
        ?_ hmem
      intro i hi hg hn
      exact hinj i (by rw [← hgl]; exact hi) e he hg hn

/-- Witness for C2: removing config 1 from the two-config sample muxer
disables the event of id 1 (no longer referenced) and keeps and never
disables the event of id 2 (still referenced by config 2). -/
theorem removeConfig_event_disabling_witness :
    Effect.disableEvent "sched" "sched_switch" ∈
      (RemoveConfig sampleEnv sampleTable sampleMuxer2 1).2.2 ∧
    (1 : Nat) ∉ (RemoveConfig sampleEnv sampleTable
      sampleMuxer2 1).2.1.current_state.ftrace_events.enabled_ids ∧
    (2 : Nat) ∈ (RemoveConfig sampleEnv sampleTable
      sampleMuxer2 1).2.1.current_state.ftrace_events.enabled_ids ∧
    Effect.disableEvent "power" "cpu_idle" ∉
      (RemoveConfig sampleEnv sampleTable sampleMuxer2 1).2.2 := by
  have hsucc : ¬ ((1 : Nat) = 0 ∨
      ¬ sampleMuxer2.ds_configs.any (fun p => p.1 = 1)) := by decide
  have hok := @removeConfig_fst_eq_true sampleEnv sampleTable
    sampleMuxer2 1 hsucc
  have h := removeConfig_event_disabling sampleEnv sampleTable sampleMuxer2 1
    (by decide) (by decide) hok
  have hds : (RemoveConfig sampleEnv sampleTable
      sampleMuxer2 1).2.1.ds_configs = [(2, sampleCfgB)] := by
    rw [removeConfig_ds hsucc]
    decide
  have h1 := (h 1 (by decide)).1 (by rw [hds]; decide)
  have h2 := (h 2 (by decide)).2 (by rw [hds]; decide)
  have hev1 : sampleTable.getEventById 1 =
      ⟨"sched", "sched_switch", 1⟩ := rfl
  have hev2 : sampleTable.getEventById 2 = ⟨"power", "cpu_idle", 2⟩ := rfl
  rw [hev1] at h1
  rw [hev2] at h2
  refine ⟨h1.1, ?_, h2.1, h2.2⟩
  intro hmem
  have := h1.2.mp hmem
  simp [sampleEnv] at this

set_option maxHeartbeats 1600000 in
theorem removeConfig_teardown_mem {env : Env} {table : ProtoTranslationTable}
    {m : FtraceConfigMuxer} {config_id : Nat}
    (hsucc : ¬ (config_id = 0 ∨ ¬ m.ds_configs.any (fun p => p.1 = config_id)))
    (hfil : m.ds_configs.filter (fun p => p.1 ≠ config_id) = []) :
    Effect.setCpuBufferSize 1 ∈ (RemoveConfig env table m config_id).2.2 ∧
    Effect.disableAllEvents ∈ (RemoveConfig env table m config_id).2.2 ∧
    Effect.clearTrace ∈ (RemoveConfig env table m config_id).2.2 := by
  simp only [RemoveConfig]
  rw [if_neg hsucc]
  simp only [DisableAtrace, StartAtrace, hfil, List.isEmpty_nil]
  refine ⟨?_, ?_, ?_⟩ <;>
    (repeat' split) <;>
    first
      | (simp [List.mem_append]; done)
      | simp_all

set_option maxHeartbeats 1600000 in
theorem removeConfig_disableTracing_mem {env : Env}
    {table : ProtoTranslationTable} {m : FtraceConfigMuxer} {config_id : Nat}
    (hsucc : ¬ (config_id = 0 ∨ ¬ m.ds_configs.any (fun p => p.1 = config_id)))
    (hin : config_id ∈ m.active_configs)
    (hfa : m.active_configs.filter (fun x => x ≠ config_id) = []) :
    Effect.disableTracing ∈ (RemoveConfig env table m config_id).2.2 := by
  simp only [RemoveConfig]
  rw [if_neg hsucc]
  simp only [DisableAtrace, StartAtrace, hin, if_true, hfa, List.isEmpty_nil]
  (repeat' split) <;>
    first
      | (simp [List.mem_append]; done)
      | simp_all

set_option maxHeartbeats 1600000 in
theorem removeConfig_active {env : Env} {table : ProtoTranslationTable}
    {m : FtraceConfigMuxer} {config_id : Nat}
    (hsucc : ¬ (config_id = 0 ∨ ¬ m.ds_configs.any (fun p => p.1 = config_id))) :
    (RemoveConfig env table m config_id).2.1.active_configs =
      (if config_id ∈ m.active_configs then
        m.active_configs.filter (fun x => x ≠ config_id)
       else m.active_configs) := by
  simp only [RemoveConfig]
  rw [if_neg hsucc]
  simp only [DisableAtrace, StartAtrace]
  repeat' split
  all_goals rfl

/-- C3: whenever `RemoveConfig(id)` returns true and the registry has
thereby become empty, the muxer requests the per-CPU buffers shrunk to one
page, disables all events and clears the trace buffer; and, assuming the
active set only holds registered ids, the active set is left empty and —
when it was non-empty before the call — `tracing_on = 0` is written. -/
theorem removeConfig_teardown (env : Env) (table : ProtoTranslationTable)
    (m : FtraceConfigMuxer) (config_id : Nat)
    (hsub : ∀ a ∈ m.active_configs, ∃ p ∈ m.ds_configs, p.1 = a)
    (hok : (RemoveConfig env table m config_id).1 = true)
    (hempty : (RemoveConfig env table m config_id).2.1.ds_configs = []) :
    Effect.setCpuBufferSize 1 ∈ (RemoveConfig env table m config_id).2.2 ∧
    Effect.disableAllEvents ∈ (RemoveConfig env table m config_id).2.2 ∧
    Effect.clearTrace ∈ (RemoveConfig env table m config_id).2.2 ∧
    (RemoveConfig env table m config_id).2.1.active_configs = [] ∧
    (m.active_configs ≠ [] →
      Effect.disableTracing ∈ (RemoveConfig env table m config_id).2.2) := by
  have hsucc := removeConfig_guard_of_true hok
  have hfil : m.ds_configs.filter (fun p => p.1 ≠ config_id) = [] := by
    rw [← removeConfig_ds hsucc]
    exact hempty
  have hall : ∀ p ∈ m.ds_configs, p.1 = config_id := by
    intro p hp
    have h := List.filter_eq_nil_iff.mp hfil p hp
    simpa using h
  have hact : ∀ a ∈ m.active_configs, a = config_id := by
    intro a ha
    rcases hsub a ha with ⟨p, hp, hpa⟩
    rw [← hpa]
    exact hall p hp
  have hmem3 := @removeConfig_teardown_mem env table m config_id
    hsucc hfil
  refine ⟨hmem3.1, hmem3.2.1, hmem3.2.2, ?_, ?_⟩
  · rw [removeConfig_active hsucc]
    by_cases hin : config_id ∈ m.active_configs
    · rw [if_pos hin]
      apply List.filter_eq_nil_iff.mpr
      intro a ha
      simp [hact a ha]
    · rw [if_neg hin]
      apply List.eq_nil_iff_forall_not_mem.mpr
      intro a ha
      exact hin ((hact a ha) ▸ ha)
  · intro hne
    have hin : config_id ∈ m.active_configs := by
      rcases List.exists_mem_of_ne_nil m.active_configs hne with ⟨a, ha⟩
      exact (hact a ha) ▸ ha
    have hfa : m.active_configs.filter (fun x => x ≠ config_id) = [] := by
      apply List.filter_eq_nil_iff.mpr
      intro a ha
      simp [hact a ha]
    exact removeConfig_disableTracing_mem hsucc hin hfa

/-- Witness for C3: removing the only (active) config of the one-config
sample muxer produces the buffer shrink, disable-all, clear-trace and
tracing-off writes, and empties the active set. -/
theorem removeConfig_teardown_witness :
    Effect.setCpuBufferSize 1 ∈
      (RemoveConfig sampleEnv sampleTable sampleMuxer1 1).2.2 ∧
    Effect.disableAllEvents ∈
      (RemoveConfig sampleEnv sampleTable sampleMuxer1 1).2.2 ∧
    Effect.clearTrace ∈
      (RemoveConfig sampleEnv sampleTable sampleMuxer1 1).2.2 ∧
    (RemoveConfig sampleEnv sampleTable sampleMuxer1 1).2.1.active_configs
      = [] ∧
    Effect.disableTracing ∈
      (RemoveConfig sampleEnv sampleTable sampleMuxer1 1).2.2 := by
  have hsucc : ¬ ((1 : Nat) = 0 ∨
      ¬ sampleMuxer1.ds_configs.any (fun p => p.1 = 1)) := by decide
  have hempty : (RemoveConfig sampleEnv sampleTable
      sampleMuxer1 1).2.1.ds_configs = [] := by
    rw [removeConfig_ds hsucc]
    decide
  have h := removeConfig_teardown sampleEnv sampleTable sampleMuxer1 1
    (by decide) (removeConfig_fst_eq_true hsucc) hempty
  exact ⟨h.1, h.2.1, h.2.2.1, h.2.2.2.1, h.2.2.2.2 (by decide)⟩

end Perfetto
